import Mathlib

/-!
Verification of the Jack-to-VM compiler (`JackCompiler.py`): a shallow
embedding of its tokenizer, symbol table and fused parser / code generator,
followed by theorems settling the specification claims.

Conventions of the embedding:
* the Python character-class predicates (`isspace`, `isdigit`, `isalpha`,
  `isalnum`) are modelled on their ASCII behaviour;
* the tokenizer's cursor over a fixed string is modelled as recursion over
  the remaining character suffix;
* Python dictionaries are association lists with overwrite-on-insert
  (`dictInsert`), preserving single-binding-per-key semantics;
* raised exceptions become an `Except CompErr` result; loops recurse on an
  explicit fuel argument whose exhaustion is the distinguished error
  `CompErr.noFuel` (unreachable for adequate fuel);
* the append-only emission buffer (`CodeGenerator.output`, only ever
  extended through `write`) is a writer component: every compile function
  returns the list of instructions it appended.
-/

namespace Jack

/-! ## Tokenizer (`Tokenizer`) -/

inductive TokenType where
  | KEYWORD
  | SYMBOL
  | IDENTIFIER
  | INT_CONST
  | STRING_CONST
  | EOF
deriving DecidableEq, Repr

structure Token where
  type : TokenType
  value : String
  line : Nat := 0
deriving DecidableEq, Repr

/-- ASCII reading of Python `str.isspace` (space, tab, newline, CR, VT, FF). -/
def pyIsSpace (c : Char) : Bool :=
  c = ' ' || c = '\t' || c = '\n' || c = '\r' || c = '\x0b' || c = '\x0c'

/-- ASCII reading of Python `str.isdigit`. -/
def pyIsDigit (c : Char) : Bool := '0' ≤ c && c ≤ '9'

/-- ASCII reading of Python `str.isalpha`. -/
def pyIsAlpha (c : Char) : Bool := ('a' ≤ c && c ≤ 'z') || ('A' ≤ c && c ≤ 'Z')

/-- ASCII reading of Python `str.isalnum`. -/
def pyIsAlnum (c : Char) : Bool := pyIsAlpha c || pyIsDigit c

/-- `Tokenizer.KEYWORDS`. -/
def keywordList : List String :=
  ["class", "constructor", "function", "method", "field", "static",
   "var", "int", "char", "boolean", "void", "true", "false", "null",
   "this", "let", "do", "if", "else", "while", "return"]

/-- `Tokenizer.SYMBOLS`. -/
def symbolList : List Char :=
  ['\x7b', '\x7d', '(', ')', '[', ']', '.', ',', ';', '=',
   '+', '-', '*', '/', '<', '>', '&', '|', '~']

/-- The inner `/* ... */` scan (`_skip_whitespace_and_comments`, block case):
`while self.pos + 1 < len: if code[pos:pos+2] == asterisk-slash: pos += 2; break
...`.  The loop body runs only while at least two characters remain. -/
def skipBlock : List Char → Nat → (List Char × Nat)
  | c1 :: c2 :: rest, ln =>
    if c1 = '*' ∧ c2 = '/' then (rest, ln)
    else skipBlock (c2 :: rest) (if c1 = '\n' then ln + 1 else ln)
  | cs, ln => (cs, ln)

/-- `Tokenizer._skip_whitespace_and_comments`: skip a maximal run of
whitespace, `//` comments and `/* */` comments, counting newlines. -/
def skipWsC : Nat → List Char → Nat → (List Char × Nat)
  | 0, cs, ln => (cs, ln)
  | f+1, cs, ln =>
    match cs with
    | [] => ([], ln)
    | c :: rest =>
      if pyIsSpace c then skipWsC f rest (if c = '\n' then ln + 1 else ln)
      else
        match cs with
        | '/' :: '/' :: r2 =>
          skipWsC f (r2.dropWhile (fun x => x ≠ '\n')) ln
        | '/' :: '*' :: r2 =>
          let p := skipBlock r2 ln
          skipWsC f p.1 p.2
        | _ => (cs, ln)

/-- `Tokenizer.tokenize`: the main scanning loop.  Each iteration skips
whitespace/comments and dispatches on the next character; the EOF token is
appended when the input is exhausted.  Fuel ≥ remaining length + 1 is always
adequate since every iteration consumes at least one character. -/
def tokenizeLoop : Nat → List Char → Nat → List Token
  | 0, _, ln => [⟨.EOF, "", ln⟩]
  | f+1, cs, ln =>
    let p := skipWsC (cs.length + 1) cs ln
    match p.1 with
    | [] => [⟨.EOF, "", p.2⟩]
    | c :: rest =>
      if c = '\x22' then
        -- `_read_string`: scan to the next quote; skip the closing quote
        let sval := rest.takeWhile (fun x => x ≠ '\x22')
        let rem := (rest.dropWhile (fun x => x ≠ '\x22')).drop 1
        ⟨.STRING_CONST, String.mk sval, p.2⟩ :: tokenizeLoop f rem p.2
      else if pyIsDigit c then
        -- `_read_number`: maximal digit run, no range check
        let dval := (c :: rest).takeWhile pyIsDigit
        let rem := (c :: rest).dropWhile pyIsDigit
        ⟨.INT_CONST, String.mk dval, p.2⟩ :: tokenizeLoop f rem p.2
      else if pyIsAlpha c || c = '_' then
        -- `_read_identifier`: maximal letter/digit/underscore run
        let ival := (c :: rest).takeWhile (fun x => pyIsAlnum x || x = '_')
        let rem := (c :: rest).dropWhile (fun x => pyIsAlnum x || x = '_')
        let tt := if String.mk ival ∈ keywordList then TokenType.KEYWORD
                  else TokenType.IDENTIFIER
        ⟨tt, String.mk ival, p.2⟩ :: tokenizeLoop f rem p.2
      else if c ∈ symbolList then
        ⟨.SYMBOL, String.mk [c], p.2⟩ :: tokenizeLoop f rest p.2
      else
        -- the final `else: self.pos += 1` — the character is skipped
        tokenizeLoop f rest p.2

/-- Tokenize a whole source string (cursor starts at 0, line counter at 1). -/
def tokenizeStr (code : String) : List Token :=
  tokenizeLoop (code.length + 1) code.data 1

/-! ## Symbol table (`SymbolTable`) -/

inductive SymbolKind where
  | STATIC
  | FIELD
  | ARG
  | VAR
deriving DecidableEq, Repr

structure Symbol where
  name : String
  type : String
  kind : SymbolKind
  index : Nat
deriving DecidableEq, Repr

/-- Python `dict.__setitem__`: overwrite the binding if the key is present,
otherwise append it. -/
def dictInsert : List (String × Symbol) → String → Symbol → List (String × Symbol)
  | [], k, v => [(k, v)]
  | (k1, v1) :: rest, k, v =>
    if k1 = k then (k, v) :: rest else (k1, v1) :: dictInsert rest k v

/-- Python `dict.get` / `in`: first (and only) binding of a key. -/
def dictFind : List (String × Symbol) → String → Option Symbol
  | [], _ => none
  | (k1, v1) :: rest, k => if k1 = k then some v1 else dictFind rest k

structure SymbolTable where
  class_symbols : List (String × Symbol)
  subroutine_symbols : List (String × Symbol)
  static_count : Nat
  field_count : Nat
  arg_count : Nat
  var_count : Nat
deriving DecidableEq, Repr

def emptySymbolTable : SymbolTable := ⟨[], [], 0, 0, 0, 0⟩

/-- `SymbolTable._get_count`: return the counter for `kind` and increment it
(the Python method mutates the counter and returns the pre-increment value). -/
def SymbolTable.getCount (st : SymbolTable) : SymbolKind → (Nat × SymbolTable)
  | .STATIC => (st.static_count, { st with static_count := st.static_count + 1 })
  | .FIELD => (st.field_count, { st with field_count := st.field_count + 1 })
  | .ARG => (st.arg_count, { st with arg_count := st.arg_count + 1 })
  | .VAR => (st.var_count, { st with var_count := st.var_count + 1 })

/-- `SymbolTable.define`: build the symbol with the current counter as index,
then store it in the class scope (Static/Field) or subroutine scope
(Arg/Var).  There is no duplicate check: an existing binding is overwritten. -/
def SymbolTable.define (st : SymbolTable) (name ty : String) (kind : SymbolKind) :
    SymbolTable :=
  let p := st.getCount kind
  let sym : Symbol := ⟨name, ty, kind, p.1⟩
  if kind = .STATIC ∨ kind = .FIELD then
    { p.2 with class_symbols := dictInsert p.2.class_symbols name sym }
  else
    { p.2 with subroutine_symbols := dictInsert p.2.subroutine_symbols name sym }

/-- `SymbolTable.lookup`: subroutine scope first, then class scope. -/
def SymbolTable.lookup (st : SymbolTable) (name : String) : Option Symbol :=
  match dictFind st.subroutine_symbols name with
  | some s => some s
  | none => dictFind st.class_symbols name

/-- `SymbolTable.start_subroutine`. -/
def SymbolTable.start_subroutine (st : SymbolTable) : SymbolTable :=
  { st with subroutine_symbols := [], arg_count := 0, var_count := 0 }

/-- `sum(1 for s in symbols.values() if s.kind == SymbolKind.VAR)`. -/
def countVarSyms (m : List (String × Symbol)) : Nat :=
  (m.filter (fun p => decide (p.2.kind = SymbolKind.VAR))).length

/-- `sum(1 for s in symbols.values() if s.kind == SymbolKind.FIELD)`. -/
def countFieldSyms (m : List (String × Symbol)) : Nat :=
  (m.filter (fun p => decide (p.2.kind = SymbolKind.FIELD))).length

/-! ## Parser state and effects -/

inductive CompErr where
  | synErr (line : Nat)
  | attrErr
  | noFuel
deriving DecidableEq, Repr

structure PState where
  tokens : List Token
  pos : Nat
  st : SymbolTable
  labelCounter : Nat
  className : String
  subroutineName : String
deriving DecidableEq, Repr

def emptyTok : Token := ⟨.EOF, "", 0⟩

/-- `self.current_token` (always `tokens[pos]`; the default covers the
empty-token-list constructor fallback `Token(EOF, '')`). -/
def PState.cur (s : PState) : Token := s.tokens.getD s.pos emptyTok

/-- `Parser.advance`: move forward only while not at the last token. -/
def advanceSt (s : PState) : PState :=
  if s.pos < s.tokens.length - 1 then { s with pos := s.pos + 1 } else s

/-- The compile monad: state, short-circuiting errors, and the append-only
emission buffer as a writer component. -/
abbrev M (α : Type) := PState → Except CompErr (α × PState × List String)

def M.bind {α β : Type} (m : M α) (f : α → M β) : M β := fun s =>
  match m s with
  | .error e => .error e
  | .ok (a, s1, o1) =>
    match f a s1 with
    | .error e => .error e
    | .ok (b, s2, o2) => .ok (b, s2, o1 ++ o2)

def M.pure {α : Type} (a : α) : M α := fun s => .ok (a, s, [])

instance : Monad M where
  pure := M.pure
  bind := M.bind

def getS : M PState := fun s => .ok (s, s, [])

def throwE {α : Type} (e : CompErr) : M α := fun _ => .error e

def advanceM : M Unit := fun s => .ok ((), advanceSt s, [])

/-- `Parser.expect(type)` (single token type, no lexeme). -/
def expectT (t : TokenType) : M Token := fun s =>
  if s.cur.type = t then .ok (s.cur, advanceSt s, [])
  else .error (.synErr s.cur.line)

/-- `Parser.expect(type, lexeme)`.  The Python guard `if value and ...`
skips the lexeme check for a falsy (empty) string. -/
def expectTV (t : TokenType) (v : String) : M Token := fun s =>
  if s.cur.type = t then
    if v ≠ "" ∧ s.cur.value ≠ v then .error (.synErr s.cur.line)
    else .ok (s.cur, advanceSt s, [])
  else .error (.synErr s.cur.line)

/-- `Parser.match(*values)`: peek-only lexeme test. -/
def matchv (vals : List String) (s : PState) : Bool := decide (s.cur.value ∈ vals)

def setClassNameM (n : String) : M Unit := fun s =>
  .ok ((), { s with className := n }, [])

def setSubroutineNameM (n : String) : M Unit := fun s =>
  .ok ((), { s with subroutineName := n }, [])

/-- `self.code_gen = CodeGenerator(self.class_name)`: fresh label counter
(and fresh output buffer — in writer form the buffer starts empty anyway). -/
def resetCodeGenM : M Unit := fun s => .ok ((), { s with labelCounter := 0 }, [])

def startSubroutineM : M Unit := fun s =>
  .ok ((), { s with st := s.st.start_subroutine }, [])

def defineM (n ty : String) (k : SymbolKind) : M Unit := fun s =>
  .ok ((), { s with st := s.st.define n ty k }, [])

def lookupM (n : String) : M (Option Symbol) := fun s => .ok (s.st.lookup n, s, [])

/-- Accessing `.kind`/`.index` on the result of `lookup`: attribute access on
`None` raises (`AttributeError`), which aborts compilation like any error. -/
def forceSym : Option Symbol → M Symbol
  | some sym => fun s => .ok (sym, s, [])
  | none => fun _ => .error .attrErr

/-! ## Code generator (`CodeGenerator`) -/

def emit (c : String) : M Unit := fun s => .ok ((), s, [c])

def write_push (seg : String) (idx : Nat) : M Unit :=
  emit ("push " ++ seg ++ " " ++ Nat.repr idx)

def write_pop (seg : String) (idx : Nat) : M Unit :=
  emit ("pop " ++ seg ++ " " ++ Nat.repr idx)

/-- `CodeGenerator.write_arithmetic`'s `op_map.get(op, op)`. -/
def opMap (op : String) : String :=
  if op = "+" then "add"
  else if op = "-" then "sub"
  else if op = "*" then "call Math.multiply 2"
  else if op = "/" then "call Math.divide 2"
  else if op = "&" then "and"
  else if op = "|" then "or"
  else if op = "<" then "lt"
  else if op = ">" then "gt"
  else if op = "=" then "eq"
  else if op = "~" then "not"
  else if op = "-neg" then "neg"
  else op

def write_arithmetic (op : String) : M Unit := emit (opMap op)

def write_call (name : String) (nargs : Nat) : M Unit :=
  emit ("call " ++ name ++ " " ++ Nat.repr nargs)

def write_function (name : String) (nlocals : Nat) : M Unit :=
  emit ("function " ++ name ++ " " ++ Nat.repr nlocals)

def write_return : M Unit := emit "return"

def write_label (l : String) : M Unit := emit ("label " ++ l)

def write_goto (l : String) : M Unit := emit ("goto " ++ l)

def write_if (l : String) : M Unit := emit ("if-goto " ++ l)

/-- `CodeGenerator.get_unique_label`: `f"{prefix}_{self.label_counter}"`,
then increment the counter. -/
def get_unique_label (pfx : String) : M String := fun s =>
  .ok (pfx ++ "_" ++ Nat.repr s.labelCounter,
       { s with labelCounter := s.labelCounter + 1 }, [])

/-- `Parser._segment_for`. -/
def segFor : SymbolKind → String
  | .FIELD => "this"
  | .STATIC => "static"
  | .ARG => "argument"
  | .VAR => "local"

/-- Python `int(...)` on the (digit-run) lexeme of an INT_CONST token. -/
def decNat (v : String) : Nat :=
  v.data.foldl (fun a c => 10 * a + (c.toNat - 48)) 0

/-- The `for char in string_val` loop of the STRING_CONST term translation. -/
def emitStringChars : List Char → M Unit
  | [] => M.pure ()
  | c :: rest => do
    write_push "constant" c.toNat
    write_call "String.appendChar" 2
    emitStringChars rest

/-- The backtrack in `compile_term`'s call case: `self.pos -= 1`, then the
(materially no-op) overwrite of `tokens[pos]` with the identifier token. -/
def backUpSt (ident : String) (s : PState) : PState :=
  let p := s.pos - 1
  let old := s.tokens.getD p emptyTok
  let newTok : Token := { old with value := ident, type := .IDENTIFIER }
  { s with pos := p, tokens := s.tokens.set p newTok }

def backUp (ident : String) : M Unit := fun s => .ok ((), backUpSt ident s, [])

/-! ## Statement and expression compilation (the mutually recursive core) -/

mutual

/-- `Parser.compile_statements`. -/
def compile_statements : Nat → M Unit
  | 0 => throwE .noFuel
  | f+1 => do
    let s ← getS
    if matchv ["let", "if", "while", "do", "return"] s then do
      if matchv ["let"] s then compile_let f
      else if matchv ["if"] s then compile_if f
      else if matchv ["while"] s then compile_while f
      else if matchv ["do"] s then compile_do f
      else if matchv ["return"] s then compile_return f
      else M.pure ()
      compile_statements f
    else M.pure ()
  termination_by structural f => f

/-- `Parser.compile_let`. -/
def compile_let : Nat → M Unit
  | 0 => throwE .noFuel
  | f+1 => do
    let _ ← expectTV .KEYWORD "let"
    let tok ← expectT .IDENTIFIER
    let symOpt ← lookupM tok.value
    let s ← getS
    let isArr := matchv ["["] s
    if isArr then do
      advanceM
      compile_expression f
      let _ ← expectTV .SYMBOL "]"
      let sym ← forceSym symOpt
      write_push (segFor sym.kind) sym.index
      write_arithmetic "+"
    else M.pure ()
    let _ ← expectTV .SYMBOL "="
    compile_expression f
    let _ ← expectTV .SYMBOL ";"
    if isArr then do
      write_pop "temp" 0
      write_pop "pointer" 1
      write_push "temp" 0
      write_pop "that" 0
    else do
      let sym ← forceSym symOpt
      write_pop (segFor sym.kind) sym.index

/-- `Parser.compile_if`. -/
def compile_if : Nat → M Unit
  | 0 => throwE .noFuel
  | f+1 => do
    let _ ← expectTV .KEYWORD "if"
    let _ ← expectTV .SYMBOL "("
    compile_expression f
    let _ ← expectTV .SYMBOL ")"
    let labelFalse ← get_unique_label "IF_FALSE"
    let labelEnd ← get_unique_label "IF_END"
    write_arithmetic "~"
    write_if labelFalse
    let _ ← expectTV .SYMBOL "\x7b"
    compile_statements f
    let _ ← expectTV .SYMBOL "\x7d"
    write_goto labelEnd
    write_label labelFalse
    let s ← getS
    if matchv ["else"] s then do
      advanceM
      let _ ← expectTV .SYMBOL "\x7b"
      compile_statements f
      let _ ← expectTV .SYMBOL "\x7d"
      M.pure ()
    else M.pure ()
    write_label labelEnd
  termination_by structural f => f

/-- `Parser.compile_while`. -/
def compile_while : Nat → M Unit
  | 0 => throwE .noFuel
  | f+1 => do
    let _ ← expectTV .KEYWORD "while"
    let _ ← expectTV .SYMBOL "("
    let labelLoop ← get_unique_label "WHILE_LOOP"
    let labelEnd ← get_unique_label "WHILE_END"
    write_label labelLoop
    compile_expression f
    let _ ← expectTV .SYMBOL ")"
    write_arithmetic "~"
    write_if labelEnd
    let _ ← expectTV .SYMBOL "\x7b"
    compile_statements f
    let _ ← expectTV .SYMBOL "\x7d"
    write_goto labelLoop
    write_label labelEnd
  termination_by structural f => f

/-- `Parser.compile_do`. -/
def compile_do : Nat → M Unit
  | 0 => throwE .noFuel
  | f+1 => do
    let _ ← expectTV .KEYWORD "do"
    compile_subroutine_call f
    write_pop "temp" 0
    let _ ← expectTV .SYMBOL ";"
    M.pure ()

/-- `Parser.compile_return`. -/
def compile_return : Nat → M Unit
  | 0 => throwE .noFuel
  | f+1 => do
    let _ ← expectTV .KEYWORD "return"
    let s ← getS
    if ¬ matchv [";"] s then compile_expression f
    else write_push "constant" 0
    let _ ← expectTV .SYMBOL ";"
    write_return

/-- `Parser.compile_expression`. -/
def compile_expression : Nat → M Unit
  | 0 => throwE .noFuel
  | f+1 => do
    compile_term f
    exprOpsLoop f
  termination_by structural f => f

/-- The `while self.match(op...)` loop of `compile_expression`. -/
def exprOpsLoop : Nat → M Unit
  | 0 => throwE .noFuel
  | f+1 => do
    let s ← getS
    if matchv ["+", "-", "*", "/", "&", "|", "<", ">", "="] s then do
      let op := s.cur.value
      advanceM
      compile_term f
      write_arithmetic op
      exprOpsLoop f
    else M.pure ()
  termination_by structural f => f

/-- `Parser.compile_term`. -/
def compile_term : Nat → M Unit
  | 0 => throwE .noFuel
  | f+1 => do
    let s ← getS
    if s.cur.type = .INT_CONST then do
      write_push "constant" (decNat s.cur.value)
      advanceM
    else if s.cur.type = .STRING_CONST then do
      write_push "constant" s.cur.value.length
      write_call "String.new" 1
      emitStringChars s.cur.value.data
      advanceM
    else if matchv ["true", "false", "null", "this"] s then do
      if s.cur.value = "true" then do
        write_push "constant" 1
        write_arithmetic "~"
      else if s.cur.value = "false" ∨ s.cur.value = "null" then
        write_push "constant" 0
      else if s.cur.value = "this" then
        write_push "pointer" 0
      else M.pure ()
      advanceM
    else if matchv ["-", "~"] s then do
      let op := s.cur.value
      advanceM
      compile_term f
      write_arithmetic (if op = "-" then "-neg" else "~")
    else if s.cur.type = .IDENTIFIER then do
      let ident := s.cur.value
      advanceM
      let s1 ← getS
      if matchv ["["] s1 then do
        let symOpt ← lookupM ident
        advanceM
        compile_expression f
        let _ ← expectTV .SYMBOL "]"
        let sym ← forceSym symOpt
        write_push (segFor sym.kind) sym.index
        write_arithmetic "+"
        write_pop "pointer" 1
        write_push "that" 0
      else if matchv ["(", "."] s1 then do
        backUp ident
        compile_subroutine_call f
      else do
        let symOpt ← lookupM ident
        let sym ← forceSym symOpt
        write_push (segFor sym.kind) sym.index
    else if matchv ["("] s then do
      advanceM
      compile_expression f
      let _ ← expectTV .SYMBOL ")"
      M.pure ()
    else M.pure ()
  termination_by structural f => f

/-- `Parser.compile_subroutine_call`. -/
def compile_subroutine_call : Nat → M Unit
  | 0 => throwE .noFuel
  | f+1 => do
    let tok ← expectT .IDENTIFIER
    let name := tok.value
    let s ← getS
    let callee ←
      if matchv ["."] s then do
        advanceM
        let mtok ← expectT .IDENTIFIER
        let symOpt ← lookupM name
        match symOpt with
        | some sym => do
          -- method call on an object held in a variable
          write_push (segFor sym.kind) sym.index
          M.pure (sym.type ++ "." ++ mtok.value, 1)
        | none =>
          -- static call on a class name
          M.pure (name ++ "." ++ mtok.value, 0)
      else do
        -- implicit-self call: unconditionally push pointer 0
        let s1 ← getS
        write_push "pointer" 0
        M.pure (s1.className ++ "." ++ name, 1)
    let _ ← expectTV .SYMBOL "("
    let n ← compile_expression_list f
    let _ ← expectTV .SYMBOL ")"
    write_call callee.1 (callee.2 + n)
  termination_by structural f => f

/-- `Parser.compile_expression_list`. -/
def compile_expression_list : Nat → M Nat
  | 0 => throwE .noFuel
  | f+1 => do
    let s ← getS
    if ¬ matchv [")"] s then do
      compile_expression f
      exprListLoop f 1
    else M.pure 0
  termination_by structural f => f

/-- The `while self.match(',')` loop of `compile_expression_list`. -/
def exprListLoop : Nat → Nat → M Nat
  | 0, _ => throwE .noFuel
  | f+1, count => do
    let s ← getS
    if matchv [","] s then do
      advanceM
      compile_expression f
      exprListLoop f (count + 1)
    else M.pure count
  termination_by structural f => f

end

/-! ## Declaration compilation and the class driver -/

/-- The `while True` name list of `compile_class_var_dec` / `compile_var_dec`. -/
def varNameLoop : Nat → String → SymbolKind → M Unit
  | 0, _, _ => throwE .noFuel
  | f+1, ty, kind => do
    let tok ← expectT .IDENTIFIER
    defineM tok.value ty kind
    let s ← getS
    if matchv [","] s then do
      advanceM
      varNameLoop f ty kind
    else M.pure ()

/-- `Parser.compile_class_var_dec`. -/
def compile_class_var_dec (f : Nat) : M Unit := do
  let s ← getS
  let kind := if matchv ["static"] s then SymbolKind.STATIC else SymbolKind.FIELD
  advanceM
  let s1 ← getS
  let ty := s1.cur.value
  advanceM
  varNameLoop f ty kind
  let _ ← expectTV .SYMBOL ";"
  M.pure ()

/-- `Parser.compile_var_dec`. -/
def compile_var_dec (f : Nat) : M Unit := do
  let _ ← expectTV .KEYWORD "var"
  let s ← getS
  let ty := s.cur.value
  advanceM
  varNameLoop f ty .VAR
  let _ ← expectTV .SYMBOL ";"
  M.pure ()

/-- The parameter loop inside `Parser.compile_parameter_list`. -/
def paramLoop : Nat → M Unit
  | 0 => throwE .noFuel
  | f+1 => do
    let s ← getS
    let pty := s.cur.value
    advanceM
    let tok ← expectT .IDENTIFIER
    defineM tok.value pty .ARG
    let s1 ← getS
    if matchv [","] s1 then do
      advanceM
      paramLoop f
    else M.pure ()

/-- `Parser.compile_parameter_list`. -/
def compile_parameter_list (f : Nat) : M Unit := do
  let s ← getS
  if ¬ matchv [")"] s then paramLoop f
  else M.pure ()

/-- The `while self.match('var')` loop in `compile_subroutine_dec`. -/
def varDecsLoop : Nat → M Unit
  | 0 => throwE .noFuel
  | f+1 => do
    let s ← getS
    if matchv ["var"] s then do
      compile_var_dec f
      varDecsLoop f
    else M.pure ()

/-- The `if subroutine_type == 'method'` pre-definition of `this` in
`compile_subroutine_dec` (factored out as a named step). -/
def predefineThis (subroutineType : String) : M Unit :=
  if subroutineType = "method" then do
    let s2 ← getS
    defineM "this" s2.className .ARG
  else M.pure ()

/-- The method/constructor prologue emission of `compile_subroutine_dec`
(factored out; the constructor branch re-reads the unchanged state for the
field count, which equals the `s3`-based count in the source since the
intervening `write_function` only appends to the output buffer). -/
def writePrologue (subroutineType : String) : M Unit :=
  if subroutineType = "method" then do
    write_push "argument" 0
    write_pop "pointer" 0
  else if subroutineType = "constructor" then do
    let s ← getS
    let nfields := countFieldSyms s.st.class_symbols
    write_push "constant" nfields
    write_call "Memory.alloc" 1
    write_pop "pointer" 0
  else M.pure ()

/-- `Parser.compile_subroutine_dec`. -/
def compile_subroutine_dec (f : Nat) : M Unit := do
  let s ← getS
  let subroutineType := s.cur.value
  advanceM
  let s1 ← getS
  let _returnType := s1.cur.value
  advanceM
  let ntok ← expectT .IDENTIFIER
  setSubroutineNameM ntok.value
  let _ ← expectTV .SYMBOL "("
  startSubroutineM
  predefineThis subroutineType
  compile_parameter_list f
  let _ ← expectTV .SYMBOL ")"
  let _ ← expectTV .SYMBOL "\x7b"
  varDecsLoop f
  let s3 ← getS
  -- (the dead `nlocals = ... if hasattr(...) else 0` assignment is skipped;
  -- the manual recount on the next source line is what takes effect)
  let nlocals := countVarSyms s3.st.subroutine_symbols
  write_function (s3.className ++ "." ++ s3.subroutineName) nlocals
  writePrologue subroutineType
  compile_statements f
  let _ ← expectTV .SYMBOL "\x7d"
  M.pure ()

/-- The `while self.match('static', 'field')` loop of `compile_class`. -/
def classVarLoop : Nat → M Unit
  | 0 => throwE .noFuel
  | f+1 => do
    let s ← getS
    if matchv ["static", "field"] s then do
      compile_class_var_dec f
      classVarLoop f
    else M.pure ()

/-- The `while self.match('constructor', 'function', 'method')` loop. -/
def subroutineLoop : Nat → M Unit
  | 0 => throwE .noFuel
  | f+1 => do
    let s ← getS
    if matchv ["constructor", "function", "method"] s then do
      compile_subroutine_dec f
      subroutineLoop f
    else M.pure ()

/-- `Parser.compile_class`. -/
def compile_class (f : Nat) : M Unit := do
  let _ ← expectTV .KEYWORD "class"
  let ntok ← expectT .IDENTIFIER
  setClassNameM ntok.value
  let _ ← expectTV .SYMBOL "\x7b"
  resetCodeGenM
  classVarLoop f
  subroutineLoop f
  let _ ← expectTV .SYMBOL "\x7d"
  M.pure ()

/-- `Parser.__init__` state for a token list. -/
def initState (tokens : List Token) : PState :=
  ⟨tokens, 0, emptySymbolTable, 0, "", ""⟩

/-- `Parser.parse`, keeping the emitted instruction list. -/
def parseOut (f : Nat) (tokens : List Token) : Except CompErr (List String) :=
  match compile_class f (initState tokens) with
  | .error e => .error e
  | .ok (_, _, out) => .ok out

/-- `Parser.parse` followed by `CodeGenerator.get_code` (`'\n'.join`). -/
def runParse (f : Nat) (tokens : List Token) : Except CompErr String :=
  match parseOut f tokens with
  | .error e => .error e
  | .ok out => .ok (String.intercalate "\n" out)

/-! ## `compile_file` over a modelled file system -/

def fsRead (fs : List (String × String)) (p : String) : Option String :=
  match fs with
  | [] => none
  | (k, v) :: rest => if k = p then some v else fsRead rest p

def fsWrite (fs : List (String × String)) (p v : String) : List (String × String) :=
  match fs with
  | [] => [(p, v)]
  | (k, v1) :: rest => if k = p then (p, v) :: rest else (k, v1) :: fsWrite rest p v

def isErr {ε α : Type} : Except ε α → Bool
  | .error _ => true
  | .ok _ => false

/-- `compile_file`: read, tokenize, parse, and only on success open and write
the output file.  A raised error propagates before the output file is opened,
so the file system is returned unchanged. -/
def compile_file (f : Nat) (fs : List (String × String))
    (input_file output_file : String) : List (String × String) :=
  match fsRead fs input_file with
  | none => fs
  | some code =>
    match runParse f (tokenizeStr code) with
    | .error _ => fs
    | .ok vm => fsWrite fs output_file vm

end Jack

namespace Jack

/-! ## Basic lemmas about the compile monad -/

@[simp] theorem bind_is_M_bind {α β : Type} (m : M α) (f : α → M β) :
    (m >>= f) = M.bind m f := rfl

@[simp] theorem pure_is_M_pure {α : Type} (a : α) :
    (Pure.pure a : M α) = M.pure a := rfl

theorem bind_ok {α β : Type} {m : M α} {f : α → M β} {s : PState}
    {r : β × PState × List String} :
    M.bind m f s = .ok r ↔
      ∃ a s1 o1 b s2 o2, m s = .ok (a, s1, o1) ∧ f a s1 = .ok (b, s2, o2) ∧
        r = (b, s2, o1 ++ o2) := by
  constructor
  · intro h
    unfold M.bind at h
    split at h
    · exact absurd h (by simp)
    · next a s1 o1 heq =>
      split at h
      · exact absurd h (by simp)
      · next b s2 o2 heq2 =>
        exact ⟨a, s1, o1, b, s2, o2, heq, heq2, by injection h; subst_vars; rfl⟩
  · rintro ⟨a, s1, o1, b, s2, o2, h1, h2, rfl⟩
    unfold M.bind
    rw [h1]
    simp [h2]

theorem pure_ok {α : Type} {a : α} {s : PState} {r : α × PState × List String} :
    M.pure a s = .ok r ↔ r = (a, s, []) := by
  unfold M.pure
  constructor
  · intro h
    injection h
    subst_vars
    rfl
  · rintro rfl
    rfl

/-! ## Decimal representation: `Nat.repr` is injective on the numeric suffix -/

/-- Big-endian decimal digit list of a natural number. -/
def decDigits (n : Nat) : List Char :=
  if n < 10 then [Nat.digitChar n]
  else decDigits (n / 10) ++ [Nat.digitChar (n % 10)]
  decreasing_by
    exact Nat.div_lt_self (by omega) (by omega)

theorem toDigitsCore_eq_decDigits (fuel n : Nat) (ds : List Char) (h : n < fuel) :
    Nat.toDigitsCore 10 fuel n ds = decDigits n ++ ds := by
  induction fuel generalizing n ds with
  | zero => omega
  | succ f ih =>
    unfold Nat.toDigitsCore
    simp only []
    by_cases h10 : n / 10 = 0
    · have hn : n < 10 := by omega
      rw [if_pos h10, decDigits, if_pos hn, Nat.mod_eq_of_lt hn]
      simp
    · rw [if_neg h10]
      have hn10 : 10 ≤ n := by omega
      have hdlt : n / 10 < n := Nat.div_lt_self (by omega) (by decide)
      have hlt : n / 10 < f := by omega
      rw [ih _ _ hlt]
      conv_rhs => rw [decDigits]
      rw [if_neg (by omega)]
      simp

theorem repr_data (n : Nat) : (Nat.repr n).data = decDigits n := by
  show (Nat.toDigits 10 n).asString.data = decDigits n
  rw [Nat.toDigits, toDigitsCore_eq_decDigits (n+1) n [] (by omega)]
  simp [List.asString]

def digitVal (c : Char) : Nat := c.toNat - 48

/-- Value of a big-endian decimal digit list. -/
def valD (l : List Char) : Nat := l.foldl (fun a c => 10 * a + digitVal c) 0

theorem valD_append_last (l : List Char) (a : Nat) (c : Char) :
    List.foldl (fun a c => 10 * a + digitVal c) a (l ++ [c]) =
      10 * List.foldl (fun a c => 10 * a + digitVal c) a l + digitVal c := by
  simp [List.foldl_append]

theorem digitVal_digitChar (n : Nat) (h : n < 10) :
    digitVal (Nat.digitChar n) = n := by
  interval_cases n <;> rfl

theorem valD_decDigits (n : Nat) : valD (decDigits n) = n := by
  induction n using Nat.strong_induction_on with
  | _ n ih =>
    by_cases h : n < 10
    · rw [decDigits, if_pos h]
      simp [valD, digitVal_digitChar n h]
    · rw [decDigits, if_neg h]
      unfold valD
      rw [valD_append_last]
      have := ih (n / 10) (Nat.div_lt_self (by omega) (by omega))
      unfold valD at this
      rw [this, digitVal_digitChar _ (Nat.mod_lt _ (by omega))]
      omega

theorem decDigits_all_digit (n : Nat) : ∀ c ∈ decDigits n, c.isDigit := by
  induction n using Nat.strong_induction_on with
  | _ n ih =>
    by_cases h : n < 10
    · rw [decDigits, if_pos h]
      intro c hc
      simp at hc
      subst hc
      interval_cases n <;> decide
    · rw [decDigits, if_neg h]
      intro c hc
      simp at hc
      rcases hc with hc | hc
      · exact ih (n / 10) (Nat.div_lt_self (by omega) (by omega)) c hc
      · subst hc
        have : n % 10 < 10 := Nat.mod_lt _ (by omega)
        interval_cases h : n % 10 <;> decide

theorem takeWhile_append_of_all {p : Char → Bool} (l1 l2 : List Char)
    (h : ∀ c ∈ l1, p c = true) :
    (l1 ++ l2).takeWhile p = l1 ++ l2.takeWhile p := by
  induction l1 with
  | nil => simp
  | cons c rest ih =>
    simp only [List.cons_append, List.takeWhile_cons, h c (List.mem_cons_self c rest)]
    simp [ih (fun x hx => h x (List.mem_cons_of_mem c hx))]

/-- Recover the numeric suffix of a generated label. -/
def decodeK (l : String) : Nat :=
  valD ((l.data.reverse.takeWhile Char.isDigit).reverse)

theorem decodeK_label (p : String) (k : Nat) :
    decodeK (p ++ "_" ++ Nat.repr k) = k := by
  unfold decodeK
  have hdata : (p ++ "_" ++ Nat.repr k).data =
      (p.data ++ ['_']) ++ (Nat.repr k).data := by
    simp [String.data_append]
  rw [hdata]
  rw [List.reverse_append, List.reverse_append]
  simp only [List.reverse_cons, List.reverse_nil, List.nil_append, List.singleton_append]
  rw [takeWhile_append_of_all _ _
        (fun c hc => decDigits_all_digit k c (by
          rw [repr_data] at hc
          exact List.mem_reverse.mp hc))]
  rw [List.takeWhile_cons]
  simp only [show ('_'.isDigit : Bool) = false from rfl]
  simp [repr_data, valD_decDigits]

theorem label_inj_k {p1 p2 : String} {k1 k2 : Nat}
    (h : p1 ++ "_" ++ Nat.repr k1 = p2 ++ "_" ++ Nat.repr k2) : k1 = k2 := by
  have := congrArg decodeK h
  rwa [decodeK_label, decodeK_label] at this

end Jack

namespace Jack

/-! ## Emitted label lines and the label-freshness invariant -/

/-- The four prefixes ever passed to `get_unique_label`. -/
def labelKinds : List String := ["IF_FALSE", "IF_END", "WHILE_LOOP", "WHILE_END"]

/-- Recognize a `label L` instruction and extract `L`. -/
def isLabelLine (l : String) : Option String :=
  if l.data.take 6 = ("label " : String).data then some (String.mk (l.data.drop 6))
  else none

/-- The labels defined (as `label L` lines) in an instruction list. -/
def labelDefs (out : List String) : List String := out.filterMap isLabelLine

@[simp] theorem labelDefs_nil : labelDefs [] = [] := rfl

@[simp] theorem labelDefs_append (o1 o2 : List String) :
    labelDefs (o1 ++ o2) = labelDefs o1 ++ labelDefs o2 := by
  simp [labelDefs, List.filterMap_append]

theorem isLabelLine_label (l : String) : isLabelLine ("label " ++ l) = some l := by
  unfold isLabelLine
  have hdata : ("label " ++ l).data = ("label " : String).data ++ l.data := by
    simp [String.data_append]
  have htake : (("label " : String).data ++ l.data).take 6 = ("label " : String).data := by
    rw [show (6 : Nat) = ("label " : String).data.length from rfl]
    exact List.take_left _ _
  have hdrop : (("label " : String).data ++ l.data).drop 6 = l.data := by
    rw [show (6 : Nat) = ("label " : String).data.length from rfl]
    exact List.drop_left _ _
  rw [hdata, htake, hdrop, if_pos rfl]

@[simp] theorem labelDefs_label_cons (l : String) (rest : List String) :
    labelDefs (("label " ++ l) :: rest) = l :: labelDefs rest := by
  simp [labelDefs, List.filterMap_cons, isLabelLine_label]

/-- Instructions that are not label definitions. -/
def nonLabel (l : String) : Prop := isLabelLine l = none

theorem labelDefs_cons_of_nonLabel {l : String} (h : nonLabel l) (rest : List String) :
    labelDefs (l :: rest) = labelDefs rest := by
  unfold nonLabel at h
  simp [labelDefs, List.filterMap_cons, h]

theorem nonLabel_of_head (c : Char) (cs : List Char) (l : String)
    (hd : l.data = c :: cs) (hc : c ≠ 'l') : nonLabel l := by
  unfold nonLabel isLabelLine
  rw [hd]
  rw [if_neg]
  intro hcontra
  rw [show (("label " : String).data = 'l' :: "abel ".data) from rfl] at hcontra
  rcases cs with _ | ⟨c2, cs2⟩ <;> simp_all

theorem nonLabel_push (seg : String) (i : Nat) :
    nonLabel ("push " ++ seg ++ " " ++ Nat.repr i) := by
  apply nonLabel_of_head 'p' ("ush ".data ++ seg.data ++ " ".data ++ (Nat.repr i).data) _
  · simp [String.data_append]
  · decide

theorem nonLabel_pop (seg : String) (i : Nat) :
    nonLabel ("pop " ++ seg ++ " " ++ Nat.repr i) := by
  apply nonLabel_of_head 'p' ("op ".data ++ seg.data ++ " ".data ++ (Nat.repr i).data) _
  · simp [String.data_append]
  · decide

theorem nonLabel_call (n : String) (i : Nat) :
    nonLabel ("call " ++ n ++ " " ++ Nat.repr i) := by
  apply nonLabel_of_head 'c' ("all ".data ++ n.data ++ " ".data ++ (Nat.repr i).data) _
  · simp [String.data_append]
  · decide

theorem nonLabel_function (n : String) (i : Nat) :
    nonLabel ("function " ++ n ++ " " ++ Nat.repr i) := by
  apply nonLabel_of_head 'f'
      ("unction ".data ++ n.data ++ " ".data ++ (Nat.repr i).data) _
  · simp [String.data_append]
  · decide

theorem nonLabel_goto (l : String) : nonLabel ("goto " ++ l) := by
  apply nonLabel_of_head 'g' ("oto ".data ++ l.data) _
  · simp [String.data_append]
  · decide

theorem nonLabel_ifgoto (l : String) : nonLabel ("if-goto " ++ l) := by
  apply nonLabel_of_head 'i' ("f-goto ".data ++ l.data) _
  · simp [String.data_append]
  · decide

theorem nonLabel_return : nonLabel "return" := by
  apply nonLabel_of_head 'r' ("eturn".data) _
  · rfl
  · decide

theorem nonLabel_opMap {op : String}
    (h : op ∈ ["+", "-", "*", "/", "&", "|", "<", ">", "=", "~", "-neg"]) :
    nonLabel (opMap op) := by
  fin_cases h <;> (unfold nonLabel; decide)

@[simp] theorem labelDefs_push_cons (seg : String) (i : Nat) (rest : List String) :
    labelDefs (("push " ++ seg ++ " " ++ Nat.repr i) :: rest) = labelDefs rest :=
  labelDefs_cons_of_nonLabel (nonLabel_push seg i) rest

@[simp] theorem labelDefs_pop_cons (seg : String) (i : Nat) (rest : List String) :
    labelDefs (("pop " ++ seg ++ " " ++ Nat.repr i) :: rest) = labelDefs rest :=
  labelDefs_cons_of_nonLabel (nonLabel_pop seg i) rest

@[simp] theorem labelDefs_call_cons (n : String) (i : Nat) (rest : List String) :
    labelDefs (("call " ++ n ++ " " ++ Nat.repr i) :: rest) = labelDefs rest :=
  labelDefs_cons_of_nonLabel (nonLabel_call n i) rest

@[simp] theorem labelDefs_function_cons (n : String) (i : Nat) (rest : List String) :
    labelDefs (("function " ++ n ++ " " ++ Nat.repr i) :: rest) = labelDefs rest :=
  labelDefs_cons_of_nonLabel (nonLabel_function n i) rest

@[simp] theorem labelDefs_goto_cons (l : String) (rest : List String) :
    labelDefs (("goto " ++ l) :: rest) = labelDefs rest :=
  labelDefs_cons_of_nonLabel (nonLabel_goto l) rest

@[simp] theorem labelDefs_ifgoto_cons (l : String) (rest : List String) :
    labelDefs (("if-goto " ++ l) :: rest) = labelDefs rest :=
  labelDefs_cons_of_nonLabel (nonLabel_ifgoto l) rest

@[simp] theorem labelDefs_return_cons (rest : List String) :
    labelDefs ("return" :: rest) = labelDefs rest := rfl

@[simp] theorem labelDefs_not_cons (rest : List String) :
    labelDefs ("not" :: rest) = labelDefs rest := rfl

@[simp] theorem opMap_tilde : opMap "~" = "not" := rfl

/-- The emitted-labels invariant: going from label counter `c1` to `c2`, the
`label` lines of the emitted instructions carry allowed prefixes and pairwise
distinct numeric suffixes drawn from `[c1, c2)`. -/
def LOK (c1 c2 : Nat) (out : List String) : Prop :=
  c1 ≤ c2 ∧ ∃ pks : List (String × Nat),
    labelDefs out = pks.map (fun pk => pk.1 ++ "_" ++ Nat.repr pk.2) ∧
    (∀ pk ∈ pks, pk.1 ∈ labelKinds ∧ c1 ≤ pk.2 ∧ pk.2 < c2) ∧
    (pks.map Prod.snd).Nodup

theorem LOK.empty {c1 c2 : Nat} (h : c1 ≤ c2) {out : List String}
    (hout : labelDefs out = []) : LOK c1 c2 out :=
  ⟨h, [], by simp [hout], by simp, by simp⟩

theorem LOK.mono {c1 c2 c1n c2n : Nat} {out : List String} (h : LOK c1 c2 out)
    (h1 : c1n ≤ c1) (h2 : c2 ≤ c2n) : LOK c1n c2n out := by
  obtain ⟨hle, pks, hmap, hbnd, hnd⟩ := h
  exact ⟨by omega, pks, hmap,
    fun pk hpk => ⟨(hbnd pk hpk).1, by have := (hbnd pk hpk).2; omega⟩, hnd⟩

theorem LOK.comp {a b c : Nat} {o1 o2 : List String}
    (h1 : LOK a b o1) (h2 : LOK b c o2) : LOK a c (o1 ++ o2) := by
  obtain ⟨hab, p1, hm1, hb1, hn1⟩ := h1
  obtain ⟨hbc, p2, hm2, hb2, hn2⟩ := h2
  refine ⟨by omega, p1 ++ p2, ?_, ?_, ?_⟩
  · simp [hm1, hm2]
  · intro pk hpk
    rcases List.mem_append.mp hpk with h | h
    · exact ⟨(hb1 pk h).1, (hb1 pk h).2.1, by have := (hb1 pk h).2.2; omega⟩
    · exact ⟨(hb2 pk h).1, by have := (hb2 pk h).2.1; omega, (hb2 pk h).2.2⟩
  · rw [List.map_append]
    rw [List.nodup_append]
    refine ⟨hn1, hn2, ?_⟩
    intro k hk1 hk2
    simp only [List.mem_map] at hk1 hk2
    obtain ⟨pk1, hpk1, rfl⟩ := hk1
    obtain ⟨pk2, hpk2, heq⟩ := hk2
    have b1 := (hb1 pk1 hpk1).2.2
    have b2 := (hb2 pk2 hpk2).2.1
    omega

/-- Labels defined under a valid `LOK` run are pairwise distinct strings. -/
theorem LOK.nodup {c1 c2 : Nat} {out : List String} (h : LOK c1 c2 out) :
    (labelDefs out).Nodup := by
  obtain ⟨_, pks, hmap, _, hnd⟩ := h
  rw [hmap]
  have : pks.map Prod.snd = (pks.map (fun pk => pk.1 ++ "_" ++ Nat.repr pk.2)).map decodeK := by
    rw [List.map_map]
    apply List.map_congr_left
    intro pk _
    simp [Function.comp, decodeK_label]
  rw [this] at hnd
  exact hnd.of_map decodeK

theorem LOK.shape {c1 c2 : Nat} {out : List String} (h : LOK c1 c2 out) :
    ∀ l ∈ labelDefs out, ∃ p k, p ∈ labelKinds ∧ k < c2 ∧ l = p ++ "_" ++ Nat.repr k := by
  obtain ⟨_, pks, hmap, hbnd, _⟩ := h
  rw [hmap]
  intro l hl
  obtain ⟨pk, hpk, rfl⟩ := List.mem_map.mp hl
  exact ⟨pk.1, pk.2, (hbnd pk hpk).1, (hbnd pk hpk).2.2, rfl⟩

end Jack

namespace Jack

/-! ## Inversion lemmas for the primitive operations -/

@[simp] theorem getS_ok {s : PState} {r : PState × PState × List String} :
    getS s = .ok r ↔ r = (s, s, []) := by
  unfold getS
  exact ⟨fun h => (Except.ok.inj h).symm, fun h => by rw [h]⟩

@[simp] theorem advanceM_ok {s : PState} {r : Unit × PState × List String} :
    advanceM s = .ok r ↔ r = ((), advanceSt s, []) := by
  unfold advanceM
  exact ⟨fun h => (Except.ok.inj h).symm, fun h => by rw [h]⟩

@[simp] theorem emit_ok {c : String} {s : PState} {r : Unit × PState × List String} :
    emit c s = .ok r ↔ r = ((), s, [c]) := by
  unfold emit
  exact ⟨fun h => (Except.ok.inj h).symm, fun h => by rw [h]⟩

@[simp] theorem lookupM_ok {n : String} {s : PState}
    {r : Option Symbol × PState × List String} :
    lookupM n s = .ok r ↔ r = (s.st.lookup n, s, []) := by
  unfold lookupM
  exact ⟨fun h => (Except.ok.inj h).symm, fun h => by rw [h]⟩

@[simp] theorem defineM_ok {n ty : String} {k : SymbolKind} {s : PState}
    {r : Unit × PState × List String} :
    defineM n ty k s = .ok r ↔ r = ((), { s with st := s.st.define n ty k }, []) := by
  unfold defineM
  exact ⟨fun h => (Except.ok.inj h).symm, fun h => by rw [h]⟩

@[simp] theorem setClassNameM_ok {n : String} {s : PState}
    {r : Unit × PState × List String} :
    setClassNameM n s = .ok r ↔ r = ((), { s with className := n }, []) := by
  unfold setClassNameM
  exact ⟨fun h => (Except.ok.inj h).symm, fun h => by rw [h]⟩

@[simp] theorem setSubroutineNameM_ok {n : String} {s : PState}
    {r : Unit × PState × List String} :
    setSubroutineNameM n s = .ok r ↔ r = ((), { s with subroutineName := n }, []) := by
  unfold setSubroutineNameM
  exact ⟨fun h => (Except.ok.inj h).symm, fun h => by rw [h]⟩

@[simp] theorem resetCodeGenM_ok {s : PState} {r : Unit × PState × List String} :
    resetCodeGenM s = .ok r ↔ r = ((), { s with labelCounter := 0 }, []) := by
  unfold resetCodeGenM
  exact ⟨fun h => (Except.ok.inj h).symm, fun h => by rw [h]⟩

@[simp] theorem startSubroutineM_ok {s : PState} {r : Unit × PState × List String} :
    startSubroutineM s = .ok r ↔ r = ((), { s with st := s.st.start_subroutine }, []) := by
  unfold startSubroutineM
  exact ⟨fun h => (Except.ok.inj h).symm, fun h => by rw [h]⟩

@[simp] theorem get_unique_label_ok {p : String} {s : PState}
    {r : String × PState × List String} :
    get_unique_label p s = .ok r ↔
      r = (p ++ "_" ++ Nat.repr s.labelCounter,
           { s with labelCounter := s.labelCounter + 1 }, []) := by
  unfold get_unique_label
  exact ⟨fun h => (Except.ok.inj h).symm, fun h => by rw [h]⟩

@[simp] theorem backUp_ok {ident : String} {s : PState}
    {r : Unit × PState × List String} :
    backUp ident s = .ok r ↔ r = ((), backUpSt ident s, []) := by
  unfold backUp
  exact ⟨fun h => (Except.ok.inj h).symm, fun h => by rw [h]⟩

@[simp] theorem backUpSt_st (ident : String) (s : PState) :
    (backUpSt ident s).st = s.st := rfl

@[simp] theorem backUpSt_className (ident : String) (s : PState) :
    (backUpSt ident s).className = s.className := rfl

@[simp] theorem backUpSt_subroutineName (ident : String) (s : PState) :
    (backUpSt ident s).subroutineName = s.subroutineName := rfl

@[simp] theorem backUpSt_labelCounter (ident : String) (s : PState) :
    (backUpSt ident s).labelCounter = s.labelCounter := rfl

@[simp] theorem throwE_not_ok {α : Type} {e : CompErr} {s : PState}
    {r : α × PState × List String} : ¬ throwE e s = .ok r := by
  unfold throwE
  simp

theorem expectT_ok {t : TokenType} {s : PState} {r : Token × PState × List String} :
    expectT t s = .ok r ↔ s.cur.type = t ∧ r = (s.cur, advanceSt s, []) := by
  unfold expectT
  by_cases h : s.cur.type = t
  · rw [if_pos h]
    exact ⟨fun hh => ⟨h, (Except.ok.inj hh).symm⟩, fun hh => by rw [hh.2]⟩
  · rw [if_neg h]
    simp [h]

theorem expectTV_ok {t : TokenType} {v : String} {s : PState}
    {r : Token × PState × List String} :
    expectTV t v s = .ok r ↔
      s.cur.type = t ∧ ¬(v ≠ "" ∧ s.cur.value ≠ v) ∧ r = (s.cur, advanceSt s, []) := by
  unfold expectTV
  by_cases h : s.cur.type = t
  · rw [if_pos h]
    by_cases h2 : v ≠ "" ∧ s.cur.value ≠ v
    · rw [if_pos h2]
      simp [h, h2]
    · rw [if_neg h2]
      exact ⟨fun hh => ⟨h, h2, (Except.ok.inj hh).symm⟩, fun hh => by rw [hh.2.2]⟩
  · rw [if_neg h]
    simp [h]

theorem forceSym_ok {o : Option Symbol} {s : PState}
    {r : Symbol × PState × List String} :
    forceSym o s = .ok r ↔ ∃ sym, o = some sym ∧ r = (sym, s, []) := by
  cases o with
  | none =>
    unfold forceSym
    simp
  | some sym =>
    unfold forceSym
    exact ⟨fun h => ⟨sym, rfl, (Except.ok.inj h).symm⟩,
           fun ⟨sym2, h1, h2⟩ => by injection h1; subst_vars; rfl⟩

@[simp] theorem advanceSt_st (s : PState) : (advanceSt s).st = s.st := by
  unfold advanceSt
  split <;> rfl

@[simp] theorem advanceSt_className (s : PState) :
    (advanceSt s).className = s.className := by
  unfold advanceSt
  split <;> rfl

@[simp] theorem advanceSt_subroutineName (s : PState) :
    (advanceSt s).subroutineName = s.subroutineName := by
  unfold advanceSt
  split <;> rfl

@[simp] theorem advanceSt_labelCounter (s : PState) :
    (advanceSt s).labelCounter = s.labelCounter := by
  unfold advanceSt
  split <;> rfl

@[simp] theorem advanceSt_tokens (s : PState) : (advanceSt s).tokens = s.tokens := by
  unfold advanceSt
  split <;> rfl

/-! ## State-preservation invariants for the compile core -/

/-- Invariant satisfied by statement-level compilation: the symbol table and
class name are untouched, and the emitted labels obey `LOK`. -/
def SInv {α : Type} (s : PState) (r : α × PState × List String) : Prop :=
  r.2.1.st = s.st ∧ r.2.1.className = s.className ∧
    LOK s.labelCounter r.2.1.labelCounter r.2.2

/-- Invariant satisfied by expression-level compilation: additionally, the
label counter is untouched and no `label` line is emitted. -/
def EInv {α : Type} (s : PState) (r : α × PState × List String) : Prop :=
  r.2.1.st = s.st ∧ r.2.1.className = s.className ∧
    r.2.1.labelCounter = s.labelCounter ∧ labelDefs r.2.2 = []

theorem EInv.toSInv {α : Type} {s : PState} {r : α × PState × List String}
    (h : EInv s r) : SInv s r :=
  ⟨h.1, h.2.1, h.2.2.1 ▸ LOK.empty (le_refl _) h.2.2.2⟩

def PresS {α : Type} (m : M α) : Prop := ∀ s r, m s = .ok r → SInv s r

def PresE {α : Type} (m : M α) : Prop := ∀ s r, m s = .ok r → EInv s r

theorem PresE.toPresS {α : Type} {m : M α} (h : PresE m) : PresS m :=
  fun s r hr => (h s r hr).toSInv

theorem presS_bind {α β : Type} {m : M α} {g : α → M β}
    (hm : PresS m) (hg : ∀ a, PresS (g a)) : PresS (M.bind m g) := by
  intro s r h
  rw [bind_ok] at h
  obtain ⟨a, s1, o1, b, s2, o2, h1, h2, rfl⟩ := h
  obtain ⟨e1, e2, e3⟩ := hm s (a, s1, o1) h1
  obtain ⟨f1, f2, f3⟩ := hg a s1 (b, s2, o2) h2
  exact ⟨f1.trans e1, f2.trans e2, LOK.comp e3 f3⟩

theorem presE_bind {α β : Type} {m : M α} {g : α → M β}
    (hm : PresE m) (hg : ∀ a, PresE (g a)) : PresE (M.bind m g) := by
  intro s r h
  rw [bind_ok] at h
  obtain ⟨a, s1, o1, b, s2, o2, h1, h2, rfl⟩ := h
  obtain ⟨e1, e2, e3, e4⟩ := hm s (a, s1, o1) h1
  obtain ⟨f1, f2, f3, f4⟩ := hg a s1 (b, s2, o2) h2
  exact ⟨f1.trans e1, f2.trans e2, f3.trans e3, by simp [e4, f4]⟩

theorem presS_ite {α : Type} {C : Prop} [Decidable C] {A B : M α}
    (hA : C → PresS A) (hB : ¬C → PresS B) : PresS (if C then A else B) := by
  by_cases h : C
  · rw [if_pos h]; exact hA h
  · rw [if_neg h]; exact hB h

theorem presE_ite {α : Type} {C : Prop} [Decidable C] {A B : M α}
    (hA : C → PresE A) (hB : ¬C → PresE B) : PresE (if C then A else B) := by
  by_cases h : C
  · rw [if_pos h]; exact hA h
  · rw [if_neg h]; exact hB h

theorem presE_pure {α : Type} (a : α) : PresE (M.pure a) := by
  intro s r h
  rw [pure_ok] at h
  subst h
  exact ⟨rfl, rfl, rfl, rfl⟩

theorem presS_pure {α : Type} (a : α) : PresS (M.pure a) := (presE_pure a).toPresS

theorem presE_getS : PresE getS := by
  intro s r h
  rw [getS_ok] at h
  subst h
  exact ⟨rfl, rfl, rfl, rfl⟩

theorem presE_advanceM : PresE advanceM := by
  intro s r h
  rw [advanceM_ok] at h
  subst h
  exact ⟨by simp, by simp, by simp, rfl⟩

theorem presE_throwE {α : Type} (e : CompErr) : PresE (throwE e : M α) := by
  intro s r h
  exact absurd h (throwE_not_ok)

theorem presE_expectT (t : TokenType) : PresE (expectT t) := by
  intro s r h
  rw [expectT_ok] at h
  obtain ⟨-, rfl⟩ := h
  exact ⟨by simp, by simp, by simp, rfl⟩

theorem presE_expectTV (t : TokenType) (v : String) : PresE (expectTV t v) := by
  intro s r h
  rw [expectTV_ok] at h
  obtain ⟨-, -, rfl⟩ := h
  exact ⟨by simp, by simp, by simp, rfl⟩

theorem presE_lookupM (n : String) : PresE (lookupM n) := by
  intro s r h
  rw [lookupM_ok] at h
  subst h
  exact ⟨rfl, rfl, rfl, rfl⟩

theorem presE_forceSym (o : Option Symbol) : PresE (forceSym o) := by
  intro s r h
  rw [forceSym_ok] at h
  obtain ⟨sym, -, rfl⟩ := h
  exact ⟨rfl, rfl, rfl, rfl⟩

theorem presE_backUp (ident : String) : PresE (backUp ident) := by
  intro s r h
  rw [backUp_ok] at h
  subst h
  exact ⟨rfl, rfl, rfl, rfl⟩

theorem presE_emit_nonLabel {c : String} (h : nonLabel c) : PresE (emit c) := by
  intro s r hr
  rw [emit_ok] at hr
  subst hr
  exact ⟨rfl, rfl, rfl, labelDefs_cons_of_nonLabel h []⟩

theorem presE_write_push (seg : String) (i : Nat) : PresE (write_push seg i) :=
  presE_emit_nonLabel (nonLabel_push seg i)

theorem presE_write_pop (seg : String) (i : Nat) : PresE (write_pop seg i) :=
  presE_emit_nonLabel (nonLabel_pop seg i)

theorem presE_write_call (n : String) (i : Nat) : PresE (write_call n i) :=
  presE_emit_nonLabel (nonLabel_call n i)

theorem presE_write_function (n : String) (i : Nat) : PresE (write_function n i) :=
  presE_emit_nonLabel (nonLabel_function n i)

theorem presE_write_return : PresE write_return :=
  presE_emit_nonLabel nonLabel_return

theorem presE_write_goto (l : String) : PresE (write_goto l) :=
  presE_emit_nonLabel (nonLabel_goto l)

theorem presE_write_if (l : String) : PresE (write_if l) :=
  presE_emit_nonLabel (nonLabel_ifgoto l)

theorem presE_write_arithmetic {op : String}
    (h : op ∈ ["+", "-", "*", "/", "&", "|", "<", ">", "=", "~", "-neg"]) :
    PresE (write_arithmetic op) :=
  presE_emit_nonLabel (nonLabel_opMap h)

theorem presE_emitStringChars (l : List Char) : PresE (emitStringChars l) := by
  induction l with
  | nil => exact presE_pure ()
  | cons c rest ih =>
    simp only [emitStringChars, bind_is_M_bind]
    exact presE_bind (presE_write_push _ _)
      (fun _ => presE_bind (presE_write_call _ _) (fun _ => ih))

end Jack

namespace Jack

/-! ## The preservation invariant, proved for the whole compile core -/

theorem bind_ok2 {α β : Type} {m : M α} {g : α → M β} {s : PState} {b : β}
    {s2 : PState} {o : List String} :
    M.bind m g s = .ok (b, s2, o) ↔
      ∃ a s1 o1 o2, m s = .ok (a, s1, o1) ∧ g a s1 = .ok (b, s2, o2) ∧ o = o1 ++ o2 := by
  rw [bind_ok]
  constructor
  · rintro ⟨a, s1, o1, b2, s3, o2, h1, h2, heq⟩
    simp only [Prod.mk.injEq] at heq
    obtain ⟨rfl, rfl, rfl⟩ := heq
    exact ⟨a, s1, o1, o2, h1, h2, rfl⟩
  · rintro ⟨a, s1, o1, o2, h1, h2, rfl⟩
    exact ⟨a, s1, o1, b, s2, o2, h1, h2, rfl⟩

theorem matchv_mem {vals : List String} {s : PState} (h : matchv vals s = true) :
    s.cur.value ∈ vals := of_decide_eq_true h

theorem ops_extend {v : String} (h : v ∈ ["+", "-", "*", "/", "&", "|", "<", ">", "="]) :
    v ∈ ["+", "-", "*", "/", "&", "|", "<", ">", "=", "~", "-neg"] := by
  simp only [List.mem_cons, List.not_mem_nil, or_false] at h ⊢
  tauto

theorem nodup_if_assembly (c c3 c4 : Nat) {ksT ksE : List Nat}
    (hT : ∀ k ∈ ksT, c + 2 ≤ k ∧ k < c3) (hE : ∀ k ∈ ksE, c3 ≤ k ∧ k < c4)
    (hc3 : c + 2 ≤ c3) (hndT : ksT.Nodup) (hndE : ksE.Nodup) :
    (ksT ++ (c :: (ksE ++ [c + 1]))).Nodup := by
  rw [List.nodup_append]
  refine ⟨hndT, ?_, ?_⟩
  · rw [List.nodup_cons]
    constructor
    · intro hmem
      rcases List.mem_append.mp hmem with hm | hm
      · have := hE c hm
        omega
      · have := List.mem_singleton.mp hm
        omega
    · rw [List.nodup_append]
      refine ⟨hndE, by simp, ?_⟩
      intro k hk1 hk2
      have := List.mem_singleton.mp hk2
      have := hE k hk1
      omega
  · intro k hk1 hk2
    have hb := hT k hk1
    simp only [List.mem_cons, List.mem_append, List.mem_singleton,
      List.not_mem_nil, or_false] at hk2
    rcases hk2 with rfl | hk2 | rfl
    · omega
    · have := hE k hk2
      omega
    · omega

theorem presS_statements_succ (f : Nat) (hlet : PresS (compile_let f))
    (hif : PresS (compile_if f)) (hwhile : PresS (compile_while f))
    (hdo : PresS (compile_do f)) (hret : PresS (compile_return f))
    (hst : PresS (compile_statements f)) : PresS (compile_statements (f+1)) := by
  simp only [compile_statements, bind_is_M_bind, pure_is_M_pure]
  refine presS_bind presE_getS.toPresS (fun s => ?_)
  refine presS_ite (fun _ => ?_) (fun _ => presS_pure ())
  refine presS_ite (fun _ => presS_bind hlet (fun _ => hst)) (fun _ => ?_)
  refine presS_ite (fun _ => presS_bind hif (fun _ => hst)) (fun _ => ?_)
  refine presS_ite (fun _ => presS_bind hwhile (fun _ => hst)) (fun _ => ?_)
  refine presS_ite (fun _ => presS_bind hdo (fun _ => hst)) (fun _ => ?_)
  exact presS_ite (fun _ => presS_bind hret (fun _ => hst))
    (fun _ => presS_bind (presS_pure ()) (fun _ => hst))

theorem presS_let_succ (f : Nat) (hexp : PresE (compile_expression f)) :
    PresS (compile_let (f+1)) := by
  simp only [compile_let, bind_is_M_bind, pure_is_M_pure]
  refine presS_bind (presE_expectTV _ _).toPresS (fun _ => ?_)
  refine presS_bind (presE_expectT _).toPresS (fun tok => ?_)
  refine presS_bind (presE_lookupM _).toPresS (fun symOpt => ?_)
  refine presS_bind presE_getS.toPresS (fun s => ?_)
  refine presS_ite (fun _ => ?_) (fun _ => ?_)
  · refine presS_bind presE_advanceM.toPresS (fun _ => ?_)
    refine presS_bind hexp.toPresS (fun _ => ?_)
    refine presS_bind (presE_expectTV _ _).toPresS (fun _ => ?_)
    refine presS_bind (presE_forceSym _).toPresS (fun sym => ?_)
    refine presS_bind (presE_write_push _ _).toPresS (fun _ => ?_)
    refine presS_bind (presE_write_arithmetic (by decide)).toPresS (fun _ => ?_)
    refine presS_bind (presE_expectTV _ _).toPresS (fun _ => ?_)
    refine presS_bind hexp.toPresS (fun _ => ?_)
    refine presS_bind (presE_expectTV _ _).toPresS (fun _ => ?_)
    refine presS_ite (fun _ => ?_) (fun _ => ?_)
    · refine presS_bind (presE_write_pop _ _).toPresS (fun _ => ?_)
      refine presS_bind (presE_write_pop _ _).toPresS (fun _ => ?_)
      refine presS_bind (presE_write_push _ _).toPresS (fun _ => ?_)
      exact (presE_write_pop _ _).toPresS
    · refine presS_bind (presE_forceSym _).toPresS (fun sym => ?_)
      exact (presE_write_pop _ _).toPresS
  · refine presS_bind (presS_pure ()) (fun _ => ?_)
    refine presS_bind (presE_expectTV _ _).toPresS (fun _ => ?_)
    refine presS_bind hexp.toPresS (fun _ => ?_)
    refine presS_bind (presE_expectTV _ _).toPresS (fun _ => ?_)
    refine presS_ite (fun _ => ?_) (fun _ => ?_)
    · refine presS_bind (presE_write_pop _ _).toPresS (fun _ => ?_)
      refine presS_bind (presE_write_pop _ _).toPresS (fun _ => ?_)
      refine presS_bind (presE_write_push _ _).toPresS (fun _ => ?_)
      exact (presE_write_pop _ _).toPresS
    · refine presS_bind (presE_forceSym _).toPresS (fun sym => ?_)
      exact (presE_write_pop _ _).toPresS

theorem presS_while_succ (f : Nat) (hexp : PresE (compile_expression f))
    (hst : PresS (compile_statements f)) : PresS (compile_while (f+1)) := by
  intro s r h
  obtain ⟨u, s2, o⟩ := r
  simp only [compile_while, bind_is_M_bind, pure_is_M_pure] at h
  rw [bind_ok2] at h
  obtain ⟨_u, sW, oA, oB, hW, h, rfl⟩ := h
  simp only [expectTV_ok, Prod.mk.injEq] at hW
  obtain ⟨-, -, rfl, rfl, rfl⟩ := hW
  rw [bind_ok2] at h
  obtain ⟨_u, sP, oA, oB, hP, h, rfl⟩ := h
  simp only [expectTV_ok, Prod.mk.injEq] at hP
  obtain ⟨-, -, rfl, rfl, rfl⟩ := hP
  rw [bind_ok2] at h
  obtain ⟨l1, sL1, oA, oB, hL1, h, rfl⟩ := h
  simp only [get_unique_label_ok, Prod.mk.injEq] at hL1
  obtain ⟨rfl, rfl, rfl⟩ := hL1
  rw [bind_ok2] at h
  obtain ⟨l2, sL2, oA, oB, hL2, h, rfl⟩ := h
  simp only [get_unique_label_ok, Prod.mk.injEq] at hL2
  obtain ⟨rfl, rfl, rfl⟩ := hL2
  rw [bind_ok2] at h
  obtain ⟨_u, sE1, oA, oB, hE1, h, rfl⟩ := h
  simp only [write_label, emit_ok, Prod.mk.injEq] at hE1
  obtain ⟨-, rfl, rfl⟩ := hE1
  rw [bind_ok2] at h
  obtain ⟨_u, sX, oX, oB, hX, h, rfl⟩ := h
  have hinvX := hexp _ _ hX
  rw [bind_ok2] at h
  obtain ⟨_u, sC, oA, oB, hC, h, rfl⟩ := h
  simp only [expectTV_ok, Prod.mk.injEq] at hC
  obtain ⟨-, -, rfl, rfl, rfl⟩ := hC
  rw [bind_ok2] at h
  obtain ⟨_u, sN, oA, oB, hN, h, rfl⟩ := h
  simp only [write_arithmetic, emit_ok, Prod.mk.injEq] at hN
  obtain ⟨-, rfl, rfl⟩ := hN
  rw [bind_ok2] at h
  obtain ⟨_u, sI, oA, oB, hI, h, rfl⟩ := h
  simp only [write_if, emit_ok, Prod.mk.injEq] at hI
  obtain ⟨-, rfl, rfl⟩ := hI
  rw [bind_ok2] at h
  obtain ⟨_u, sB1, oA, oB, hB1, h, rfl⟩ := h
  simp only [expectTV_ok, Prod.mk.injEq] at hB1
  obtain ⟨-, -, rfl, rfl, rfl⟩ := hB1
  rw [bind_ok2] at h
  obtain ⟨_u, sS, oS, oB, hS, h, rfl⟩ := h
  have hinvS := hst _ _ hS
  rw [bind_ok2] at h
  obtain ⟨_u, sB2, oA, oB, hB2, h, rfl⟩ := h
  simp only [expectTV_ok, Prod.mk.injEq] at hB2
  obtain ⟨-, -, rfl, rfl, rfl⟩ := hB2
  rw [bind_ok2] at h
  obtain ⟨_u, sG, oA, oB, hG, h, rfl⟩ := h
  simp only [write_goto, emit_ok, Prod.mk.injEq] at hG
  obtain ⟨-, rfl, rfl⟩ := hG
  simp only [write_label, emit_ok, Prod.mk.injEq] at h
  obtain ⟨-, rfl, rfl⟩ := h
  obtain ⟨hXst, hXcn, hXlc, hXld⟩ := hinvX
  obtain ⟨hSst, hScn, hSlok⟩ := hinvS
  refine ⟨?_, ?_, ?_⟩
  · simp_all
  · simp_all
  · simp only [advanceSt_labelCounter, advanceSt_st, advanceSt_className] at hXlc hSlok ⊢
    rw [hXlc] at hSlok
    obtain ⟨hle, pksS, hmapS, hbndS, hndS⟩ := hSlok
    refine ⟨by omega,
      ("WHILE_LOOP", s.labelCounter) :: (pksS ++ [("WHILE_END", s.labelCounter + 1)]),
      ?_, ?_, ?_⟩
    · simp only [List.nil_append, List.append_nil, labelDefs_append, labelDefs_label_cons,
        labelDefs_nil, opMap_tilde, labelDefs_not_cons, labelDefs_ifgoto_cons,
        labelDefs_goto_cons, hXld, hmapS, List.map_cons, List.map_append, List.map_nil,
        advanceSt_labelCounter, List.singleton_append]
    · intro pk hpk
      simp only [List.mem_cons, List.mem_append, List.not_mem_nil, or_false] at hpk
      rcases hpk with rfl | hpk | rfl
      · exact ⟨by simp [labelKinds], le_refl _, by omega⟩
      · obtain ⟨h1, h2, h3⟩ := hbndS pk hpk
        exact ⟨h1, by omega, by omega⟩
      · exact ⟨by simp [labelKinds], by omega, by omega⟩
    · simp only [List.map_cons, List.map_append, List.map_nil]
      rw [List.nodup_cons]
      constructor
      · intro hmem
        simp only [List.mem_append, List.mem_singleton] at hmem
        rcases hmem with hmem | hmem
        · obtain ⟨pk, hpk, hsnd⟩ := List.mem_map.mp hmem
          have := (hbndS pk hpk).2.1
          omega
        · omega
      · rw [List.nodup_append]
        refine ⟨hndS, by simp, ?_⟩
        intro k hk1 hk2
        simp only [List.mem_singleton] at hk2
        obtain ⟨pk, hpk, hsnd⟩ := List.mem_map.mp hk1
        have := (hbndS pk hpk).2.1
        omega

end Jack

namespace Jack

theorem presS_if_succ (f : Nat) (hexp : PresE (compile_expression f))
    (hst : PresS (compile_statements f)) : PresS (compile_if (f+1)) := by
  intro s r h
  obtain ⟨u, s2, o⟩ := r
  simp only [compile_if, bind_is_M_bind, pure_is_M_pure] at h
  rw [bind_ok2] at h
  obtain ⟨_u, sA, oA, oB, hA, h, rfl⟩ := h
  simp only [expectTV_ok, Prod.mk.injEq] at hA
  obtain ⟨-, -, rfl, rfl, rfl⟩ := hA
  rw [bind_ok2] at h
  obtain ⟨_u, sB, oA, oB, hB, h, rfl⟩ := h
  simp only [expectTV_ok, Prod.mk.injEq] at hB
  obtain ⟨-, -, rfl, rfl, rfl⟩ := hB
  rw [bind_ok2] at h
  obtain ⟨_u, sX, oX, oB, hX, h, rfl⟩ := h
  have hinvX := hexp _ _ hX
  rw [bind_ok2] at h
  obtain ⟨_u, sC, oA, oB, hC, h, rfl⟩ := h
  simp only [expectTV_ok, Prod.mk.injEq] at hC
  obtain ⟨-, -, rfl, rfl, rfl⟩ := hC
  rw [bind_ok2] at h
  obtain ⟨lF, sD, oA, oB, hD, h, rfl⟩ := h
  simp only [get_unique_label_ok, Prod.mk.injEq] at hD
  obtain ⟨rfl, rfl, rfl⟩ := hD
  rw [bind_ok2] at h
  obtain ⟨lE, sE, oA, oB, hE, h, rfl⟩ := h
  simp only [get_unique_label_ok, Prod.mk.injEq] at hE
  obtain ⟨rfl, rfl, rfl⟩ := hE
  rw [bind_ok2] at h
  obtain ⟨_u, sF, oA, oB, hF, h, rfl⟩ := h
  simp only [write_arithmetic, emit_ok, Prod.mk.injEq] at hF
  obtain ⟨-, rfl, rfl⟩ := hF
  rw [bind_ok2] at h
  obtain ⟨_u, sG, oA, oB, hG, h, rfl⟩ := h
  simp only [write_if, emit_ok, Prod.mk.injEq] at hG
  obtain ⟨-, rfl, rfl⟩ := hG
  rw [bind_ok2] at h
  obtain ⟨_u, sH, oA, oB, hH, h, rfl⟩ := h
  simp only [expectTV_ok, Prod.mk.injEq] at hH
  obtain ⟨-, -, rfl, rfl, rfl⟩ := hH
  rw [bind_ok2] at h
  obtain ⟨_u, sT, oT, oB, hT, h, rfl⟩ := h
  have hinvT := hst _ _ hT
  rw [bind_ok2] at h
  obtain ⟨_u, sI, oA, oB, hI, h, rfl⟩ := h
  simp only [expectTV_ok, Prod.mk.injEq] at hI
  obtain ⟨-, -, rfl, rfl, rfl⟩ := hI
  rw [bind_ok2] at h
  obtain ⟨_u, sJ, oA, oB, hJ, h, rfl⟩ := h
  simp only [write_goto, emit_ok, Prod.mk.injEq] at hJ
  obtain ⟨-, rfl, rfl⟩ := hJ
  rw [bind_ok2] at h
  obtain ⟨_u, sK, oA, oB, hK, h, rfl⟩ := h
  simp only [write_label, emit_ok, Prod.mk.injEq] at hK
  obtain ⟨-, rfl, rfl⟩ := hK
  rw [bind_ok2] at h
  obtain ⟨sGot, sL, oA, oB, hL, h, rfl⟩ := h
  simp only [getS_ok, Prod.mk.injEq] at hL
  obtain ⟨rfl, rfl, rfl⟩ := hL
  by_cases hC : matchv ["else"] (advanceSt sT) = true
  · rw [if_pos hC] at h
    rw [bind_ok2] at h
    obtain ⟨_u, sM, oA, oB, hM, h, rfl⟩ := h
    simp only [advanceM_ok, Prod.mk.injEq] at hM
    obtain ⟨-, rfl, rfl⟩ := hM
    rw [bind_ok2] at h
    obtain ⟨_u, sN, oA, oB, hN, h, rfl⟩ := h
    simp only [expectTV_ok, Prod.mk.injEq] at hN
    obtain ⟨-, -, rfl, rfl, rfl⟩ := hN
    rw [bind_ok2] at h
    obtain ⟨_u, sEl, oEl, oB, hEl, h, rfl⟩ := h
    have hinvEl := hst _ _ hEl
    rw [bind_ok2] at h
    obtain ⟨_u, sP, oA, oB, hP, h, rfl⟩ := h
    simp only [expectTV_ok, Prod.mk.injEq] at hP
    obtain ⟨-, -, rfl, rfl, rfl⟩ := hP
    rw [bind_ok2] at h
    obtain ⟨_u, sQ, oA, oB, hQ, h, rfl⟩ := h
    rw [pure_ok] at hQ
    simp only [Prod.mk.injEq] at hQ
    obtain ⟨-, rfl, rfl⟩ := hQ
    simp only [write_label, emit_ok, Prod.mk.injEq] at h
    obtain ⟨-, rfl, rfl⟩ := h
    obtain ⟨hXst, hXcn, hXlc, hXld⟩ := hinvX
    obtain ⟨hTst, hTcn, hTlok⟩ := hinvT
    obtain ⟨hEst, hEcn, hElok⟩ := hinvEl
    refine ⟨?_, ?_, ?_⟩
    · simp_all
    · simp_all
    · simp only [advanceSt_labelCounter, advanceSt_st, advanceSt_className] at hXlc hTlok hElok ⊢
      rw [hXlc] at hTlok
      obtain ⟨hleT, pksT, hmapT, hbndT, hndT⟩ := hTlok
      obtain ⟨hleE, pksE, hmapE, hbndE, hndE⟩ := hElok
      refine ⟨by omega,
        pksT ++ (("IF_FALSE", sX.labelCounter) :: (pksE ++ [("IF_END", sX.labelCounter + 1)])),
        ?_, ?_, ?_⟩
      · simp only [List.nil_append, List.append_nil, labelDefs_append, labelDefs_label_cons,
          labelDefs_nil, opMap_tilde, labelDefs_not_cons, labelDefs_ifgoto_cons,
          labelDefs_goto_cons, hXld, hmapT, hmapE, List.map_cons, List.map_append, List.map_nil,
          advanceSt_labelCounter, List.singleton_append, List.append_assoc, hXlc]
      · intro pk hpk
        simp only [List.mem_append, List.mem_cons, List.not_mem_nil, or_false] at hpk
        rcases hpk with hpk | rfl | hpk | rfl
        · obtain ⟨h1, h2, h3⟩ := hbndT pk hpk
          exact ⟨h1, by omega, by omega⟩
        · exact ⟨by simp [labelKinds], by omega, by omega⟩
        · obtain ⟨h1, h2, h3⟩ := hbndE pk hpk
          exact ⟨h1, by omega, by omega⟩
        · exact ⟨by simp [labelKinds], by omega, by omega⟩
      · simp only [List.map_append, List.map_cons, List.map_nil]
        refine nodup_if_assembly _ sT.labelCounter sEl.labelCounter
          ?_ ?_ (by omega) hndT hndE
        · intro k hk
          obtain ⟨pk, hpk, rfl⟩ := List.mem_map.mp hk
          have := hbndT pk hpk
          omega
        · intro k hk
          obtain ⟨pk, hpk, rfl⟩ := List.mem_map.mp hk
          have := hbndE pk hpk
          omega
  · rw [if_neg hC] at h
    rw [bind_ok2] at h
    obtain ⟨_u, sQ, oA, oB, hQ, h, rfl⟩ := h
    rw [pure_ok] at hQ
    simp only [Prod.mk.injEq] at hQ
    obtain ⟨-, rfl, rfl⟩ := hQ
    simp only [write_label, emit_ok, Prod.mk.injEq] at h
    obtain ⟨-, rfl, rfl⟩ := h
    obtain ⟨hXst, hXcn, hXlc, hXld⟩ := hinvX
    obtain ⟨hTst, hTcn, hTlok⟩ := hinvT
    refine ⟨?_, ?_, ?_⟩
    · simp_all
    · simp_all
    · simp only [advanceSt_labelCounter, advanceSt_st, advanceSt_className] at hXlc hTlok ⊢
      rw [hXlc] at hTlok
      obtain ⟨hleT, pksT, hmapT, hbndT, hndT⟩ := hTlok
      refine ⟨by omega,
        pksT ++ (("IF_FALSE", sX.labelCounter) :: [("IF_END", sX.labelCounter + 1)]),
        ?_, ?_, ?_⟩
      · simp only [List.nil_append, List.append_nil, labelDefs_append, labelDefs_label_cons,
          labelDefs_nil, opMap_tilde, labelDefs_not_cons, labelDefs_ifgoto_cons,
          labelDefs_goto_cons, hXld, hmapT, List.map_cons, List.map_append, List.map_nil,
          advanceSt_labelCounter, List.singleton_append, List.append_assoc, hXlc]
      · intro pk hpk
        simp only [List.mem_append, List.mem_cons, List.not_mem_nil, or_false] at hpk
        rcases hpk with hpk | rfl | rfl
        · obtain ⟨h1, h2, h3⟩ := hbndT pk hpk
          exact ⟨h1, by omega, by omega⟩
        · exact ⟨by simp [labelKinds], by omega, by omega⟩
        · exact ⟨by simp [labelKinds], by omega, by omega⟩
      · simp only [List.map_append, List.map_cons, List.map_nil]
        have hshape : (sX.labelCounter :: [sX.labelCounter + 1] : List Nat) =
            [] ++ (sX.labelCounter :: ([] ++ [sX.labelCounter + 1])) := by simp
        refine List.Nodup.append ?_ ?_ ?_
        · exact hndT
        · simp
        · intro k hk1 hk2
          obtain ⟨pk, hpk, rfl⟩ := List.mem_map.mp hk1
          have := hbndT pk hpk
          simp only [List.mem_cons, List.mem_singleton, List.not_mem_nil, or_false] at hk2
          rcases hk2 with h2 | h2 <;> omega


theorem presS_do_succ (f : Nat) (hcall : PresE (compile_subroutine_call f)) :
    PresS (compile_do (f+1)) := by
  simp only [compile_do, bind_is_M_bind, pure_is_M_pure]
  refine presS_bind (presE_expectTV _ _).toPresS (fun _ => ?_)
  refine presS_bind hcall.toPresS (fun _ => ?_)
  refine presS_bind (presE_write_pop _ _).toPresS (fun _ => ?_)
  exact presS_bind (presE_expectTV _ _).toPresS (fun _ => presS_pure ())

theorem presS_return_succ (f : Nat) (hexp : PresE (compile_expression f)) :
    PresS (compile_return (f+1)) := by
  simp only [compile_return, bind_is_M_bind, pure_is_M_pure]
  refine presS_bind (presE_expectTV _ _).toPresS (fun _ => ?_)
  refine presS_bind presE_getS.toPresS (fun s => ?_)
  refine presS_ite (fun _ => ?_) (fun _ => ?_)
  · refine presS_bind hexp.toPresS (fun _ => ?_)
    refine presS_bind (presE_expectTV _ _).toPresS (fun _ => ?_)
    exact presE_write_return.toPresS
  · refine presS_bind (presE_write_push _ _).toPresS (fun _ => ?_)
    refine presS_bind (presE_expectTV _ _).toPresS (fun _ => ?_)
    exact presE_write_return.toPresS

theorem presE_expression_succ (f : Nat) (hterm : PresE (compile_term f))
    (hops : PresE (exprOpsLoop f)) : PresE (compile_expression (f+1)) := by
  simp only [compile_expression, bind_is_M_bind, pure_is_M_pure]
  exact presE_bind hterm (fun _ => hops)

theorem presE_exprOps_succ (f : Nat) (hterm : PresE (compile_term f))
    (hops : PresE (exprOpsLoop f)) : PresE (exprOpsLoop (f+1)) := by
  simp only [exprOpsLoop, bind_is_M_bind, pure_is_M_pure]
  refine presE_bind presE_getS (fun s => ?_)
  refine presE_ite (fun hC => ?_) (fun _ => presE_pure ())
  refine presE_bind presE_advanceM (fun _ => ?_)
  refine presE_bind hterm (fun _ => ?_)
  refine presE_bind (presE_write_arithmetic (ops_extend (matchv_mem hC))) (fun _ => ?_)
  exact hops

theorem presE_term_succ (f : Nat) (hterm : PresE (compile_term f))
    (hexp : PresE (compile_expression f)) (hcall : PresE (compile_subroutine_call f)) :
    PresE (compile_term (f+1)) := by
  simp only [compile_term, bind_is_M_bind, pure_is_M_pure]
  refine presE_bind presE_getS (fun s => ?_)
  refine presE_ite (fun _ => ?_) (fun _ => ?_)
  · exact presE_bind (presE_write_push _ _) (fun _ => presE_advanceM)
  refine presE_ite (fun _ => ?_) (fun _ => ?_)
  · refine presE_bind (presE_write_push _ _) (fun _ => ?_)
    refine presE_bind (presE_write_call _ _) (fun _ => ?_)
    exact presE_bind (presE_emitStringChars _) (fun _ => presE_advanceM)
  refine presE_ite (fun _ => ?_) (fun _ => ?_)
  · refine presE_ite (fun _ => ?_) (fun _ => ?_)
    · refine presE_bind (presE_write_push _ _) (fun _ => ?_)
      exact presE_bind (presE_write_arithmetic (by decide)) (fun _ => presE_advanceM)
    refine presE_ite (fun _ => ?_) (fun _ => ?_)
    · exact presE_bind (presE_write_push _ _) (fun _ => presE_advanceM)
    refine presE_ite (fun _ => ?_) (fun _ => ?_)
    · exact presE_bind (presE_write_push _ _) (fun _ => presE_advanceM)
    · exact presE_bind (presE_pure ()) (fun _ => presE_advanceM)
  refine presE_ite (fun _ => ?_) (fun _ => ?_)
  · refine presE_bind presE_advanceM (fun _ => ?_)
    refine presE_bind hterm (fun _ => ?_)
    exact presE_write_arithmetic (by split <;> decide)
  refine presE_ite (fun _ => ?_) (fun _ => ?_)
  · refine presE_bind presE_advanceM (fun _ => ?_)
    refine presE_bind presE_getS (fun s1 => ?_)
    refine presE_ite (fun _ => ?_) (fun _ => ?_)
    · refine presE_bind (presE_lookupM _) (fun symOpt => ?_)
      refine presE_bind presE_advanceM (fun _ => ?_)
      refine presE_bind hexp (fun _ => ?_)
      refine presE_bind (presE_expectTV _ _) (fun _ => ?_)
      refine presE_bind (presE_forceSym _) (fun sym => ?_)
      refine presE_bind (presE_write_push _ _) (fun _ => ?_)
      refine presE_bind (presE_write_arithmetic (by decide)) (fun _ => ?_)
      exact presE_bind (presE_write_pop _ _) (fun _ => presE_write_push _ _)
    refine presE_ite (fun _ => ?_) (fun _ => ?_)
    · exact presE_bind (presE_backUp _) (fun _ => hcall)
    · refine presE_bind (presE_lookupM _) (fun symOpt => ?_)
      exact presE_bind (presE_forceSym _) (fun sym => presE_write_push _ _)
  refine presE_ite (fun _ => ?_) (fun _ => presE_pure ())
  · refine presE_bind presE_advanceM (fun _ => ?_)
    refine presE_bind hexp (fun _ => ?_)
    exact presE_bind (presE_expectTV _ _) (fun _ => presE_pure ())

theorem presE_call_succ (f : Nat) (hlist : PresE (compile_expression_list f)) :
    PresE (compile_subroutine_call (f+1)) := by
  simp only [compile_subroutine_call, bind_is_M_bind, pure_is_M_pure]
  refine presE_bind (presE_expectT _) (fun tok => ?_)
  refine presE_bind presE_getS (fun s => ?_)
  refine presE_ite (fun _ => ?_) (fun _ => ?_)
  · refine presE_bind presE_advanceM (fun _ => ?_)
    refine presE_bind (presE_expectT _) (fun mtok => ?_)
    refine presE_bind (presE_lookupM _) (fun symOpt => ?_)
    cases symOpt with
    | none =>
      refine presE_bind (presE_pure _) (fun y => ?_)
      refine presE_bind (presE_expectTV _ _) (fun _ => ?_)
      refine presE_bind hlist (fun n => ?_)
      exact presE_bind (presE_expectTV _ _) (fun _ => presE_write_call _ _)
    | some sym =>
      refine presE_bind (presE_write_push _ _) (fun _ => ?_)
      refine presE_bind (presE_pure _) (fun y => ?_)
      refine presE_bind (presE_expectTV _ _) (fun _ => ?_)
      refine presE_bind hlist (fun n => ?_)
      exact presE_bind (presE_expectTV _ _) (fun _ => presE_write_call _ _)
  · refine presE_bind presE_getS (fun s1 => ?_)
    refine presE_bind (presE_write_push _ _) (fun _ => ?_)
    refine presE_bind (presE_pure _) (fun y => ?_)
    refine presE_bind (presE_expectTV _ _) (fun _ => ?_)
    refine presE_bind hlist (fun n => ?_)
    exact presE_bind (presE_expectTV _ _) (fun _ => presE_write_call _ _)

theorem presE_exprList_succ (f : Nat) (hexp : PresE (compile_expression f))
    (hloop : ∀ c, PresE (exprListLoop f c)) : PresE (compile_expression_list (f+1)) := by
  simp only [compile_expression_list, bind_is_M_bind, pure_is_M_pure]
  refine presE_bind presE_getS (fun s => ?_)
  refine presE_ite (fun _ => ?_) (fun _ => presE_pure _)
  exact presE_bind hexp (fun _ => hloop 1)

theorem presE_exprListLoop_succ (f : Nat) (hexp : PresE (compile_expression f))
    (hloop : ∀ c, PresE (exprListLoop f c)) (c : Nat) : PresE (exprListLoop (f+1) c) := by
  simp only [exprListLoop, bind_is_M_bind, pure_is_M_pure]
  refine presE_bind presE_getS (fun s => ?_)
  refine presE_ite (fun _ => ?_) (fun _ => presE_pure _)
  refine presE_bind presE_advanceM (fun _ => ?_)
  exact presE_bind hexp (fun _ => hloop (c + 1))

/-- The preservation invariant holds for every function of the mutually
recursive compile core, for every fuel value. -/
theorem coreInv : ∀ f : Nat,
    PresS (compile_statements f) ∧ PresS (compile_let f) ∧ PresS (compile_if f) ∧
    PresS (compile_while f) ∧ PresS (compile_do f) ∧ PresS (compile_return f) ∧
    PresE (compile_expression f) ∧ PresE (exprOpsLoop f) ∧ PresE (compile_term f) ∧
    PresE (compile_subroutine_call f) ∧ PresE (compile_expression_list f) ∧
    (∀ c, PresE (exprListLoop f c)) := by
  intro f
  induction f with
  | zero =>
    refine ⟨?_, ?_, ?_, ?_, ?_, ?_, ?_, ?_, ?_, ?_, ?_, fun c => ?_⟩ <;>
      (intro s r h
       simp only [compile_statements, compile_let, compile_if, compile_while, compile_do,
         compile_return, compile_expression, exprOpsLoop, compile_term,
         compile_subroutine_call, compile_expression_list, exprListLoop,
         throwE_not_ok] at h)
  | succ f ih =>
    obtain ⟨hst, hlet, hif, hwhile, hdo, hret, hexp, hops, hterm, hcall, hlist, hloop⟩ := ih
    exact ⟨presS_statements_succ f hlet hif hwhile hdo hret hst,
           presS_let_succ f hexp,
           presS_if_succ f hexp hst,
           presS_while_succ f hexp hst,
           presS_do_succ f hcall,
           presS_return_succ f hexp,
           presE_expression_succ f hterm hops,
           presE_exprOps_succ f hterm hops,
           presE_term_succ f hterm hexp hcall,
           presE_call_succ f hlist,
           presE_exprList_succ f hexp hloop,
           presE_exprListLoop_succ f hexp hloop⟩

theorem presS_statements (f : Nat) : PresS (compile_statements f) := (coreInv f).1

theorem presE_expression (f : Nat) : PresE (compile_expression f) :=
  (coreInv f).2.2.2.2.2.2.1

theorem presE_exprList (f : Nat) : PresE (compile_expression_list f) :=
  (coreInv f).2.2.2.2.2.2.2.2.2.2.1

end Jack

namespace Jack

/-! ## Invariants for the declaration-level functions -/

/-- Declaration helpers emit nothing and leave the label counter alone. -/
def NInv {α : Type} (s : PState) (r : α × PState × List String) : Prop :=
  r.2.1.labelCounter = s.labelCounter ∧ r.2.2 = ([] : List String)

def PresN {α : Type} (m : M α) : Prop := ∀ s r, m s = .ok r → NInv s r

/-- `LOK` alone, for functions that may allocate and emit labels. -/
def PresL {α : Type} (m : M α) : Prop :=
  ∀ s r, m s = .ok r → LOK s.labelCounter r.2.1.labelCounter r.2.2

theorem presN_toPresL {α : Type} {m : M α} (h : PresN m) : PresL m := by
  intro s r hr
  obtain ⟨h1, h2⟩ := h s r hr
  rw [h2, h1]
  exact LOK.empty (le_refl _) rfl

theorem presS_toPresL {α : Type} {m : M α} (h : PresS m) : PresL m :=
  fun s r hr => (h s r hr).2.2

theorem presE_toPresL {α : Type} {m : M α} (h : PresE m) : PresL m :=
  presS_toPresL h.toPresS

theorem presN_bind {α β : Type} {m : M α} {g : α → M β}
    (hm : PresN m) (hg : ∀ a, PresN (g a)) : PresN (M.bind m g) := by
  intro s r h
  rw [bind_ok] at h
  obtain ⟨a, s1, o1, b, s2, o2, h1, h2, rfl⟩ := h
  obtain ⟨e1, e2⟩ := hm s (a, s1, o1) h1
  obtain ⟨f1, f2⟩ := hg a s1 (b, s2, o2) h2
  refine ⟨f1.trans e1, ?_⟩
  show o1 ++ o2 = []
  rw [show o1 = [] from e2, show o2 = [] from f2]
  rfl

theorem presL_bind {α β : Type} {m : M α} {g : α → M β}
    (hm : PresL m) (hg : ∀ a, PresL (g a)) : PresL (M.bind m g) := by
  intro s r h
  rw [bind_ok] at h
  obtain ⟨a, s1, o1, b, s2, o2, h1, h2, rfl⟩ := h
  exact LOK.comp (hm s (a, s1, o1) h1) (hg a s1 (b, s2, o2) h2)

theorem presN_ite {α : Type} {C : Prop} [Decidable C] {A B : M α}
    (hA : C → PresN A) (hB : ¬C → PresN B) : PresN (if C then A else B) := by
  by_cases h : C
  · rw [if_pos h]; exact hA h
  · rw [if_neg h]; exact hB h

theorem presL_ite {α : Type} {C : Prop} [Decidable C] {A B : M α}
    (hA : C → PresL A) (hB : ¬C → PresL B) : PresL (if C then A else B) := by
  by_cases h : C
  · rw [if_pos h]; exact hA h
  · rw [if_neg h]; exact hB h

theorem presN_pure {α : Type} (a : α) : PresN (M.pure a) := by
  intro s r h
  rw [pure_ok] at h
  subst h
  exact ⟨rfl, rfl⟩

theorem presN_getS : PresN getS := by
  intro s r h
  rw [getS_ok] at h
  subst h
  exact ⟨rfl, rfl⟩

theorem presN_advanceM : PresN advanceM := by
  intro s r h
  rw [advanceM_ok] at h
  subst h
  exact ⟨by simp, rfl⟩

theorem presN_expectT (t : TokenType) : PresN (expectT t) := by
  intro s r h
  rw [expectT_ok] at h
  obtain ⟨-, rfl⟩ := h
  exact ⟨by simp, rfl⟩

theorem presN_expectTV (t : TokenType) (v : String) : PresN (expectTV t v) := by
  intro s r h
  rw [expectTV_ok] at h
  obtain ⟨-, -, rfl⟩ := h
  exact ⟨by simp, rfl⟩

theorem presN_defineM (n ty : String) (k : SymbolKind) : PresN (defineM n ty k) := by
  intro s r h
  rw [defineM_ok] at h
  subst h
  exact ⟨rfl, rfl⟩

theorem presN_setSubroutineNameM (n : String) : PresN (setSubroutineNameM n) := by
  intro s r h
  rw [setSubroutineNameM_ok] at h
  subst h
  exact ⟨rfl, rfl⟩

theorem presN_setClassNameM (n : String) : PresN (setClassNameM n) := by
  intro s r h
  rw [setClassNameM_ok] at h
  subst h
  exact ⟨rfl, rfl⟩

theorem presN_startSubroutineM : PresN startSubroutineM := by
  intro s r h
  rw [startSubroutineM_ok] at h
  subst h
  exact ⟨rfl, rfl⟩

theorem presN_varNameLoop (f : Nat) (ty : String) (k : SymbolKind) :
    PresN (varNameLoop f ty k) := by
  induction f with
  | zero =>
    intro s r h
    simp only [varNameLoop, throwE_not_ok] at h
  | succ f ih =>
    simp only [varNameLoop, bind_is_M_bind, pure_is_M_pure]
    refine presN_bind (presN_expectT _) (fun tok => ?_)
    refine presN_bind (presN_defineM _ _ _) (fun _ => ?_)
    refine presN_bind presN_getS (fun s => ?_)
    refine presN_ite (fun _ => ?_) (fun _ => presN_pure ())
    exact presN_bind presN_advanceM (fun _ => ih)

theorem presN_class_var_dec (f : Nat) : PresN (compile_class_var_dec f) := by
  simp only [compile_class_var_dec, bind_is_M_bind, pure_is_M_pure]
  refine presN_bind presN_getS (fun s => ?_)
  refine presN_bind presN_advanceM (fun _ => ?_)
  refine presN_bind presN_getS (fun s1 => ?_)
  refine presN_bind presN_advanceM (fun _ => ?_)
  refine presN_bind (presN_varNameLoop _ _ _) (fun _ => ?_)
  exact presN_bind (presN_expectTV _ _) (fun _ => presN_pure ())

theorem presN_var_dec (f : Nat) : PresN (compile_var_dec f) := by
  simp only [compile_var_dec, bind_is_M_bind, pure_is_M_pure]
  refine presN_bind (presN_expectTV _ _) (fun _ => ?_)
  refine presN_bind presN_getS (fun s => ?_)
  refine presN_bind presN_advanceM (fun _ => ?_)
  refine presN_bind (presN_varNameLoop _ _ _) (fun _ => ?_)
  exact presN_bind (presN_expectTV _ _) (fun _ => presN_pure ())

theorem presN_paramLoop (f : Nat) : PresN (paramLoop f) := by
  induction f with
  | zero =>
    intro s r h
    simp only [paramLoop, throwE_not_ok] at h
  | succ f ih =>
    simp only [paramLoop, bind_is_M_bind, pure_is_M_pure]
    refine presN_bind presN_getS (fun s => ?_)
    refine presN_bind presN_advanceM (fun _ => ?_)
    refine presN_bind (presN_expectT _) (fun tok => ?_)
    refine presN_bind (presN_defineM _ _ _) (fun _ => ?_)
    refine presN_bind presN_getS (fun s1 => ?_)
    refine presN_ite (fun _ => ?_) (fun _ => presN_pure ())
    exact presN_bind presN_advanceM (fun _ => ih)

theorem presN_parameter_list (f : Nat) : PresN (compile_parameter_list f) := by
  simp only [compile_parameter_list, bind_is_M_bind, pure_is_M_pure]
  refine presN_bind presN_getS (fun s => ?_)
  exact presN_ite (fun _ => presN_paramLoop f) (fun _ => presN_pure ())

theorem presN_varDecsLoop (f : Nat) : PresN (varDecsLoop f) := by
  induction f with
  | zero =>
    intro s r h
    simp only [varDecsLoop, throwE_not_ok] at h
  | succ f ih =>
    simp only [varDecsLoop, bind_is_M_bind, pure_is_M_pure]
    refine presN_bind presN_getS (fun s => ?_)
    refine presN_ite (fun _ => ?_) (fun _ => presN_pure ())
    exact presN_bind (presN_var_dec f) (fun _ => ih)

theorem presN_predefineThis (subroutineType : String) :
    PresN (predefineThis subroutineType) := by
  simp only [predefineThis, bind_is_M_bind, pure_is_M_pure]
  refine presN_ite (fun _ => ?_) (fun _ => presN_pure ())
  exact presN_bind presN_getS (fun s2 => presN_defineM _ _ _)

theorem presE_writePrologue (subroutineType : String) :
    PresE (writePrologue subroutineType) := by
  simp only [writePrologue, bind_is_M_bind, pure_is_M_pure]
  refine presE_ite (fun _ => ?_) (fun _ => ?_)
  · exact presE_bind (presE_write_push _ _) (fun _ => presE_write_pop _ _)
  refine presE_ite (fun _ => ?_) (fun _ => presE_pure ())
  refine presE_bind presE_getS (fun s => ?_)
  refine presE_bind (presE_write_push _ _) (fun _ => ?_)
  exact presE_bind (presE_write_call _ _) (fun _ => presE_write_pop _ _)

theorem presL_subroutine_dec (f : Nat) : PresL (compile_subroutine_dec f) := by
  simp only [compile_subroutine_dec, bind_is_M_bind, pure_is_M_pure]
  refine presL_bind (presN_toPresL presN_getS) (fun s => ?_)
  refine presL_bind (presN_toPresL presN_advanceM) (fun _ => ?_)
  refine presL_bind (presN_toPresL presN_getS) (fun s1 => ?_)
  refine presL_bind (presN_toPresL presN_advanceM) (fun _ => ?_)
  refine presL_bind (presN_toPresL (presN_expectT _)) (fun ntok => ?_)
  refine presL_bind (presN_toPresL (presN_setSubroutineNameM _)) (fun _ => ?_)
  refine presL_bind (presN_toPresL (presN_expectTV _ _)) (fun _ => ?_)
  refine presL_bind (presN_toPresL presN_startSubroutineM) (fun _ => ?_)
  refine presL_bind (presN_toPresL (presN_predefineThis _)) (fun _ => ?_)
  refine presL_bind (presN_toPresL (presN_parameter_list f)) (fun _ => ?_)
  refine presL_bind (presN_toPresL (presN_expectTV _ _)) (fun _ => ?_)
  refine presL_bind (presN_toPresL (presN_expectTV _ _)) (fun _ => ?_)
  refine presL_bind (presN_toPresL (presN_varDecsLoop f)) (fun _ => ?_)
  refine presL_bind (presN_toPresL presN_getS) (fun s3 => ?_)
  refine presL_bind (presE_toPresL (presE_write_function _ _)) (fun _ => ?_)
  refine presL_bind (presE_toPresL (presE_writePrologue _)) (fun _ => ?_)
  refine presL_bind (presS_toPresL (presS_statements f)) (fun _ => ?_)
  exact presL_bind (presN_toPresL (presN_expectTV _ _)) (fun _ => (presN_toPresL (presN_pure ())))

theorem presN_classVarLoop (f : Nat) : PresN (classVarLoop f) := by
  induction f with
  | zero =>
    intro s r h
    simp only [classVarLoop, throwE_not_ok] at h
  | succ f ih =>
    simp only [classVarLoop, bind_is_M_bind, pure_is_M_pure]
    refine presN_bind presN_getS (fun s => ?_)
    refine presN_ite (fun _ => ?_) (fun _ => presN_pure ())
    exact presN_bind (presN_class_var_dec f) (fun _ => ih)

theorem presL_subroutineLoop (f : Nat) : PresL (subroutineLoop f) := by
  induction f with
  | zero =>
    intro s r h
    simp only [subroutineLoop, throwE_not_ok] at h
  | succ f ih =>
    simp only [subroutineLoop, bind_is_M_bind, pure_is_M_pure]
    refine presL_bind (presN_toPresL presN_getS) (fun s => ?_)
    refine presL_ite (fun _ => ?_) (fun _ => (presN_toPresL (presN_pure ())))
    exact presL_bind (presL_subroutine_dec f) (fun _ => ih)

/-- Every successful class compilation satisfies `LOK` from counter 0: the
labels it defines all have allowed prefixes and pairwise distinct suffixes. -/
theorem compile_class_LOK {f : Nat} {s : PState} {r : Unit × PState × List String}
    (h : compile_class f s = .ok r) : LOK 0 r.2.1.labelCounter r.2.2 := by
  obtain ⟨u, s2, o⟩ := r
  simp only [compile_class, bind_is_M_bind, pure_is_M_pure] at h
  rw [bind_ok2] at h
  obtain ⟨_u, sA, oA, oB, hA, h, rfl⟩ := h
  simp only [expectTV_ok, Prod.mk.injEq] at hA
  obtain ⟨-, -, rfl, rfl, rfl⟩ := hA
  rw [bind_ok2] at h
  obtain ⟨ntok, sB, oA, oB, hB, h, rfl⟩ := h
  simp only [expectT_ok, Prod.mk.injEq] at hB
  obtain ⟨-, rfl, rfl, rfl⟩ := hB
  rw [bind_ok2] at h
  obtain ⟨_u, sC, oA, oB, hC, h, rfl⟩ := h
  simp only [setClassNameM_ok, Prod.mk.injEq] at hC
  obtain ⟨-, rfl, rfl⟩ := hC
  rw [bind_ok2] at h
  obtain ⟨_u, sD, oA, oB, hD, h, rfl⟩ := h
  simp only [expectTV_ok, Prod.mk.injEq] at hD
  obtain ⟨-, -, rfl, rfl, rfl⟩ := hD
  rw [bind_ok2] at h
  obtain ⟨_u, sE, oA, oB, hE, h, rfl⟩ := h
  simp only [resetCodeGenM_ok, Prod.mk.injEq] at hE
  obtain ⟨-, rfl, rfl⟩ := hE
  rw [bind_ok2] at h
  obtain ⟨_u, sF, oF, oB, hF, h, rfl⟩ := h
  obtain ⟨hFlc, hFout⟩ := presN_classVarLoop f _ _ hF
  rw [bind_ok2] at h
  obtain ⟨_u, sG, oG, oB, hG, h, rfl⟩ := h
  have hGlok := presL_subroutineLoop f _ _ hG
  rw [bind_ok2] at h
  obtain ⟨_u, sH, oA, oB, hH, h, rfl⟩ := h
  simp only [expectTV_ok, Prod.mk.injEq] at hH
  obtain ⟨-, -, rfl, rfl, rfl⟩ := hH
  rw [pure_ok] at h
  simp only [Prod.mk.injEq] at h
  obtain ⟨-, rfl, rfl⟩ := h
  have h0 : sF.labelCounter = 0 := hFlc
  rw [h0] at hGlok
  have hG2 : LOK 0 sG.labelCounter oG := hGlok
  rw [show oF = [] from hFout]
  simpa using hG2

end Jack

namespace Jack

/-! ## Shared helpers for the claim theorems -/

theorem advanceSt_eq_of {s : PState} (h : s.pos + 1 < s.tokens.length) :
    advanceSt s = { s with pos := s.pos + 1 } := by
  unfold advanceSt
  rw [if_pos (by omega)]

theorem pyIsDigit_ne {c : Char} (h : pyIsDigit c = true) (d : Char)
    (hd : pyIsDigit d = false) : c ≠ d := fun he => by
  subst he
  rw [h] at hd
  cases hd

/-- If the head character is no whitespace and no `/`, the skip phase stops. -/
theorem skipWsC_stuck {c : Char} (f : Nat) (cs : List Char) (ln : Nat)
    (h1 : pyIsSpace c = false) (h2 : c ≠ '/') :
    skipWsC (f+1) (c :: cs) ln = (c :: cs, ln) := by
  rw [skipWsC]
  rw [if_neg (by simp [h1])]
  split <;> simp_all

theorem dropWhile_append_of_all {p : Char → Bool} (l1 l2 : List Char)
    (h : ∀ c ∈ l1, p c = true) :
    (l1 ++ l2).dropWhile p = l2.dropWhile p := by
  induction l1 with
  | nil => simp
  | cons c rest ih =>
    simp only [List.cons_append, List.dropWhile_cons, h c (List.mem_cons_self c rest)]
    simp [ih (fun x hx => h x (List.mem_cons_of_mem c hx))]

theorem dictFind_dictInsert (m : List (String × Symbol)) (k : String) (v : Symbol) :
    dictFind (dictInsert m k v) k = some v := by
  induction m with
  | nil => simp [dictInsert, dictFind]
  | cons p rest ih =>
    obtain ⟨k1, v1⟩ := p
    by_cases h : k1 = k
    · simp [dictInsert, dictFind, h]
    · simp only [dictInsert, dictFind, if_neg h]
      exact ih

theorem dictFind_dictInsert_ne (m : List (String × Symbol)) (k n : String) (v : Symbol)
    (h : k ≠ n) : dictFind (dictInsert m k v) n = dictFind m n := by
  induction m with
  | nil => simp [dictInsert, dictFind, h]
  | cons p rest ih =>
    obtain ⟨k1, v1⟩ := p
    by_cases h1 : k1 = k
    · subst h1
      simp [dictInsert, dictFind, h]
    · simp only [dictInsert, if_neg h1, dictFind]
      by_cases h2 : k1 = n
      · simp [h2]
      · simp only [if_neg h2]
        exact ih

/-- Projection helpers to name the components of a concrete run. -/
def resState (r : Except CompErr (Unit × PState × List String)) : PState :=
  match r with
  | .ok p => p.2.1
  | .error _ => initState []

def resOut (r : Except CompErr (Unit × PState × List String)) : List String :=
  match r with
  | .ok p => p.2.2
  | .error _ => []

/-! ## Claim C2: scope lemmas for the declaration helpers -/

theorem cur_mem {s : PState} (h : s.cur.type = TokenType.IDENTIFIER) :
    s.cur ∈ s.tokens := by
  unfold PState.cur at *
  unfold List.getD at *
  cases hg : s.tokens.get? s.pos with
  | none =>
    rw [hg] at h
    cases h
  | some t =>
    simp only [hg, Option.getD_some]
    exact List.get?_mem hg

theorem define_ARG (st : SymbolTable) (n t : String) :
    st.define n t .ARG =
      { st with
        subroutine_symbols := dictInsert st.subroutine_symbols n ⟨n, t, .ARG, st.arg_count⟩,
        arg_count := st.arg_count + 1 } := rfl

theorem define_VAR (st : SymbolTable) (n t : String) :
    st.define n t .VAR =
      { st with
        subroutine_symbols := dictInsert st.subroutine_symbols n ⟨n, t, .VAR, st.var_count⟩,
        var_count := st.var_count + 1 } := rfl

/-- What `paramLoop` does to the subroutine scope: it only inserts Argument
symbols named by identifier tokens of the token list, with indices at or
above the entry argument counter. -/
theorem paramLoop_scope (f : Nat) :
    ∀ s r, paramLoop f s = .ok r →
      r.2.1.tokens = s.tokens ∧ r.2.1.className = s.className ∧
      r.2.1.subroutineName = s.subroutineName ∧
      r.2.1.st.class_symbols = s.st.class_symbols ∧
      s.st.arg_count ≤ r.2.1.st.arg_count ∧
      (∀ n, (∀ t ∈ s.tokens, t.type = TokenType.IDENTIFIER → t.value ≠ n) →
        dictFind r.2.1.st.subroutine_symbols n = dictFind s.st.subroutine_symbols n) ∧
      (∀ n sym, dictFind r.2.1.st.subroutine_symbols n = some sym →
        dictFind s.st.subroutine_symbols n = some sym ∨
          (sym.kind = .ARG ∧ s.st.arg_count ≤ sym.index)) := by
  induction f with
  | zero =>
    intro s r h
    simp only [paramLoop, throwE_not_ok] at h
  | succ f ih =>
    intro s r h
    simp only [paramLoop, bind_is_M_bind, pure_is_M_pure] at h
    obtain ⟨b, s9, o9⟩ := r
    rw [bind_ok2] at h
    obtain ⟨sG, sA, oA, oB, hA, h, rfl⟩ := h
    simp only [getS_ok, Prod.mk.injEq] at hA
    obtain ⟨rfl, rfl, rfl⟩ := hA
    rw [bind_ok2] at h
    obtain ⟨_u, sB, oA, oB, hB, h, rfl⟩ := h
    simp only [advanceM_ok, Prod.mk.injEq] at hB
    obtain ⟨-, rfl, rfl⟩ := hB
    rw [bind_ok2] at h
    obtain ⟨tok, sC, oA, oB, hC, h, rfl⟩ := h
    simp only [expectT_ok, Prod.mk.injEq] at hC
    obtain ⟨htokty, rfl, rfl, rfl⟩ := hC
    rw [bind_ok2] at h
    obtain ⟨_u, sD, oA, oB, hD, h, rfl⟩ := h
    simp only [defineM_ok, Prod.mk.injEq] at hD
    obtain ⟨-, rfl, rfl⟩ := hD
    rw [bind_ok2] at h
    obtain ⟨sG2, sE, oA, oB, hE, h, rfl⟩ := h
    simp only [getS_ok, Prod.mk.injEq] at hE
    obtain ⟨rfl, rfl, rfl⟩ := hE
    have htokmem : (advanceSt sA).cur ∈ sA.tokens := by
      have hmem := cur_mem htokty
      rwa [advanceSt_tokens] at hmem
    simp only [advanceSt_tokens, advanceSt_st, advanceSt_className, advanceSt_subroutineName,
      advanceSt_labelCounter, define_ARG] at h
    have hdef := define_ARG sA.st (advanceSt sA).cur.value sA.cur.value
    split at h
    · -- comma seen: advance and recurse
      rw [bind_ok2] at h
      obtain ⟨_u2, sF, oC, oD, hF, h, hout⟩ := h
      simp only [advanceM_ok, Prod.mk.injEq] at hF
      obtain ⟨-, rfl, rfl⟩ := hF
      have hrec := ih _ _ h
      obtain ⟨r1, r2, r3, r4, r5, r6, r7⟩ := hrec
      simp only [advanceSt_tokens, advanceSt_className, advanceSt_subroutineName,
        advanceSt_st] at r1 r2 r3 r4 r5 r6 r7
      simp only [hout, List.nil_append]
      refine ⟨r1, r2, r3, r4, by omega, ?_, ?_⟩
      · intro n hn
        rw [r6 n (by simpa using hn)]
        rw [dictFind_dictInsert_ne]
        exact hn _ htokmem htokty
      · intro n sym hfind
        rcases r7 n sym hfind with hold | hnew
        · by_cases hne : (advanceSt sA).cur.value = n
          · rw [hne, dictFind_dictInsert] at hold
            injection hold with hsymeq
            subst hsymeq
            right
            exact ⟨rfl, le_refl _⟩
          · rw [dictFind_dictInsert_ne _ _ _ _ hne] at hold
            left
            exact hold
        · right
          exact ⟨hnew.1, by omega⟩
    · -- no comma: stop
      rw [pure_ok] at h
      simp only [Prod.mk.injEq] at h
      obtain ⟨-, rfl, rfl⟩ := h
      simp only [List.append_nil, List.nil_append]
      refine ⟨trivial, trivial, trivial, trivial, by omega, ?_, ?_⟩
      · intro n hn
        rw [dictFind_dictInsert_ne]
        exact hn _ htokmem htokty
      · intro n sym hfind
        by_cases hne : (advanceSt sA).cur.value = n
        · rw [hne, dictFind_dictInsert] at hfind
          injection hfind with hsymeq
          subst hsymeq
          right
          exact ⟨rfl, le_refl _⟩
        · rw [dictFind_dictInsert_ne _ _ _ _ hne] at hfind
          left
          exact hfind

/-- Scope effect of the subroutine-variable declaration helpers: the token
stream, names and class scope are untouched, the argument counter is
unchanged, bindings whose name is not the value of any identifier token are
preserved, and any new binding has Local kind. -/
def VInv {α : Type} (s : PState) (r : α × PState × List String) : Prop :=
  r.2.1.tokens = s.tokens ∧ r.2.1.className = s.className ∧
  r.2.1.subroutineName = s.subroutineName ∧
  r.2.1.st.class_symbols = s.st.class_symbols ∧
  r.2.1.st.arg_count = s.st.arg_count ∧
  (∀ n, (∀ t ∈ s.tokens, t.type = TokenType.IDENTIFIER → t.value ≠ n) →
    dictFind r.2.1.st.subroutine_symbols n = dictFind s.st.subroutine_symbols n) ∧
  (∀ n sym, dictFind r.2.1.st.subroutine_symbols n = some sym →
    dictFind s.st.subroutine_symbols n = some sym ∨ sym.kind = SymbolKind.VAR)

def PresV {α : Type} (m : M α) : Prop := ∀ s r, m s = .ok r → VInv s r

theorem presV_bind {α β : Type} {m : M α} {g : α → M β}
    (hm : PresV m) (hg : ∀ a, PresV (g a)) : PresV (M.bind m g) := by
  intro s r h
  rw [bind_ok] at h
  obtain ⟨a, s1, o1, b, s2, o2, h1, h2, rfl⟩ := h
  obtain ⟨e1, e2, e3, e4, e5, e6, e7⟩ := hm s (a, s1, o1) h1
  obtain ⟨f1, f2, f3, f4, f5, f6, f7⟩ := hg a s1 (b, s2, o2) h2
  have e1' : s1.tokens = s.tokens := e1
  refine ⟨f1.trans e1, f2.trans e2, f3.trans e3, f4.trans e4, f5.trans e5, ?_, ?_⟩
  · intro n hn
    have hn1 : ∀ t ∈ s1.tokens, t.type = TokenType.IDENTIFIER → t.value ≠ n :=
      fun t ht => hn t (e1' ▸ ht)
    exact (f6 n hn1).trans (e6 n hn)
  · intro n sym hf
    rcases f7 n sym hf with hold | hv
    · exact e7 n sym hold
    · exact .inr hv

theorem presV_ite {α : Type} {C : Prop} [Decidable C] {A B : M α}
    (hA : C → PresV A) (hB : ¬C → PresV B) : PresV (if C then A else B) := by
  by_cases h : C
  · rw [if_pos h]; exact hA h
  · rw [if_neg h]; exact hB h

theorem presV_pure {α : Type} (a : α) : PresV (M.pure a) := by
  intro s r h
  rw [pure_ok] at h
  subst h
  exact ⟨rfl, rfl, rfl, rfl, rfl, fun n _ => rfl, fun n sym hf => .inl hf⟩

theorem presV_getS : PresV getS := by
  intro s r h
  rw [getS_ok] at h
  subst h
  exact ⟨rfl, rfl, rfl, rfl, rfl, fun n _ => rfl, fun n sym hf => .inl hf⟩

theorem presV_advanceM : PresV advanceM := by
  intro s r h
  rw [advanceM_ok] at h
  subst h
  refine ⟨by simp, by simp, by simp, by simp, by simp, fun n _ => by simp,
    fun n sym hf => .inl (by simpa using hf)⟩

theorem presV_expectT (t : TokenType) : PresV (expectT t) := by
  intro s r h
  rw [expectT_ok] at h
  obtain ⟨-, rfl⟩ := h
  refine ⟨by simp, by simp, by simp, by simp, by simp, fun n _ => by simp,
    fun n sym hf => .inl (by simpa using hf)⟩

theorem presV_expectTV (t : TokenType) (v : String) : PresV (expectTV t v) := by
  intro s r h
  rw [expectTV_ok] at h
  obtain ⟨-, -, rfl⟩ := h
  refine ⟨by simp, by simp, by simp, by simp, by simp, fun n _ => by simp,
    fun n sym hf => .inl (by simpa using hf)⟩

theorem presV_varNameLoop (f : Nat) (ty : String) :
    PresV (varNameLoop f ty SymbolKind.VAR) := by
  induction f with
  | zero =>
    intro s r h
    simp only [varNameLoop, throwE_not_ok] at h
  | succ f ih =>
    intro s r h
    simp only [varNameLoop, bind_is_M_bind, pure_is_M_pure] at h
    obtain ⟨b, s9, o9⟩ := r
    rw [bind_ok2] at h
    obtain ⟨tok, sB, oA, oB, hB, h, rfl⟩ := h
    rw [expectT_ok] at hB
    obtain ⟨htokty, hB2⟩ := hB
    simp only [Prod.mk.injEq] at hB2
    obtain ⟨rfl, rfl, rfl⟩ := hB2
    rw [bind_ok2] at h
    obtain ⟨_u, sC, oA, oB, hC, h, rfl⟩ := h
    simp only [defineM_ok, Prod.mk.injEq] at hC
    obtain ⟨-, rfl, rfl⟩ := hC
    rw [bind_ok2] at h
    obtain ⟨sX, sD, oA, oB, hD, h, rfl⟩ := h
    simp only [getS_ok, Prod.mk.injEq] at hD
    obtain ⟨rfl, rfl, rfl⟩ := hD
    have htokmem : s.cur ∈ s.tokens := cur_mem htokty
    simp only [advanceSt_tokens, advanceSt_st, advanceSt_className, advanceSt_subroutineName,
      advanceSt_labelCounter, define_VAR] at h
    split at h
    · -- a comma follows: advance and keep reading names
      rw [bind_ok2] at h
      obtain ⟨_u2, sF, oC, oD, hF, h, hout⟩ := h
      simp only [advanceM_ok, Prod.mk.injEq] at hF
      obtain ⟨-, rfl, rfl⟩ := hF
      have hrec := ih _ _ h
      obtain ⟨r1, r2, r3, r4, r5, r6, r7⟩ := hrec
      simp only [advanceSt_tokens, advanceSt_className, advanceSt_subroutineName,
        advanceSt_st] at r1 r2 r3 r4 r5 r6 r7
      refine ⟨r1, r2, r3, r4, r5, ?_, ?_⟩
      · intro n hn
        rw [r6 n (by simpa using hn)]
        rw [dictFind_dictInsert_ne]
        exact hn _ htokmem htokty
      · intro n sym hfind
        rcases r7 n sym hfind with hold | hnew
        · by_cases hne : s.cur.value = n
          · rw [hne, dictFind_dictInsert] at hold
            injection hold with hsymeq
            subst hsymeq
            right
            rfl
          · rw [dictFind_dictInsert_ne _ _ _ _ hne] at hold
            left
            exact hold
        · right
          exact hnew
    · -- no comma: the loop ends
      rw [pure_ok] at h
      simp only [Prod.mk.injEq] at h
      obtain ⟨-, rfl, rfl⟩ := h
      refine ⟨rfl, rfl, rfl, rfl, rfl, ?_, ?_⟩
      · intro n hn
        rw [dictFind_dictInsert_ne]
        exact hn _ htokmem htokty
      · intro n sym hfind
        by_cases hne : s.cur.value = n
        · rw [hne, dictFind_dictInsert] at hfind
          injection hfind with hsymeq
          subst hsymeq
          right
          rfl
        · rw [dictFind_dictInsert_ne _ _ _ _ hne] at hfind
          left
          exact hfind

theorem presV_var_dec (f : Nat) : PresV (compile_var_dec f) := by
  simp only [compile_var_dec, bind_is_M_bind, pure_is_M_pure]
  refine presV_bind (presV_expectTV _ _) (fun _ => ?_)
  refine presV_bind presV_getS (fun s => ?_)
  refine presV_bind presV_advanceM (fun _ => ?_)
  refine presV_bind (presV_varNameLoop f _) (fun _ => ?_)
  exact presV_bind (presV_expectTV _ _) (fun _ => presV_pure ())

theorem presV_varDecsLoop (f : Nat) : PresV (varDecsLoop f) := by
  induction f with
  | zero =>
    intro s r h
    simp only [varDecsLoop, throwE_not_ok] at h
  | succ f ih =>
    simp only [varDecsLoop, bind_is_M_bind, pure_is_M_pure]
    refine presV_bind presV_getS (fun s => ?_)
    refine presV_ite (fun _ => ?_) (fun _ => presV_pure ())
    exact presV_bind (presV_var_dec f) (fun _ => ih)

theorem parameter_list_scope (f : Nat) :
    ∀ s r, compile_parameter_list f s = .ok r →
      r.2.1.tokens = s.tokens ∧ r.2.1.className = s.className ∧
      r.2.1.subroutineName = s.subroutineName ∧
      r.2.1.st.class_symbols = s.st.class_symbols ∧
      s.st.arg_count ≤ r.2.1.st.arg_count ∧
      (∀ n, (∀ t ∈ s.tokens, t.type = TokenType.IDENTIFIER → t.value ≠ n) →
        dictFind r.2.1.st.subroutine_symbols n = dictFind s.st.subroutine_symbols n) ∧
      (∀ n sym, dictFind r.2.1.st.subroutine_symbols n = some sym →
        dictFind s.st.subroutine_symbols n = some sym ∨
          (sym.kind = SymbolKind.ARG ∧ s.st.arg_count ≤ sym.index)) := by
  intro s r h
  simp only [compile_parameter_list, bind_is_M_bind, pure_is_M_pure] at h
  obtain ⟨b, s9, o9⟩ := r
  rw [bind_ok2] at h
  obtain ⟨sZ, sA, oA, oB, hA, h, rfl⟩ := h
  simp only [getS_ok, Prod.mk.injEq] at hA
  obtain ⟨rfl, rfl, rfl⟩ := hA
  split at h
  · exact paramLoop_scope f sA (b, s9, oB) h
  · rw [pure_ok] at h
    simp only [Prod.mk.injEq] at h
    obtain ⟨-, rfl, rfl⟩ := h
    exact ⟨rfl, rfl, rfl, rfl, le_refl _, fun n _ => rfl, fun n sym hf => .inl hf⟩

theorem predefineThis_method :
    predefineThis "method"
      = M.bind getS (fun q => defineM "this" q.className SymbolKind.ARG) := by
  unfold predefineThis
  rw [if_pos rfl]
  simp only [bind_is_M_bind]

theorem writePrologue_method :
    writePrologue "method"
      = M.bind (write_push "argument" 0) (fun _ => write_pop "pointer" 0) := by
  unfold writePrologue
  rw [if_pos rfl]
  simp only [bind_is_M_bind]

/-- C2: for a subroutine declared with kind `method`, the symbol table
pre-defines an Argument named `this` at index 0 (typed with the class name)
before the declared parameters, every other Argument gets an index of at
least 1, and the emitted code begins with `function C.name L` — where `L`
counts the Local symbols of the same recorded scope — immediately followed
by the prologue `push argument 0; pop pointer 0`.  (The hypothesis `hthis`
says no identifier token in the stream is spelled `this`, which Jack
guarantees since `this` is a keyword.) -/
theorem c2_method_prologue (f : Nat) (s sFin : PState) (out : List String)
    (hrun : compile_subroutine_dec f s = .ok ((), sFin, out))
    (hm : s.cur.value = "method")
    (hthis : ∀ t ∈ s.tokens, t.type = TokenType.IDENTIFIER → t.value ≠ "this") :
    ∃ (st3 : SymbolTable) (rest : List String),
      out = ("function " ++ (s.className ++ "." ++ (advanceSt (advanceSt s)).cur.value)
               ++ " " ++ Nat.repr (countVarSyms st3.subroutine_symbols))
          :: "push argument 0" :: "pop pointer 0" :: rest ∧
      st3.lookup "this" = some ⟨"this", s.className, SymbolKind.ARG, 0⟩ ∧
      (∀ n sym, dictFind st3.subroutine_symbols n = some sym →
        sym.kind = SymbolKind.ARG → n ≠ "this" → 1 ≤ sym.index) := by
  have h := hrun
  simp only [compile_subroutine_dec, bind_is_M_bind, pure_is_M_pure] at h
  -- the subroutine kind keyword
  rw [bind_ok2] at h
  obtain ⟨sZ, sA, oA, oB, hA, h, rfl⟩ := h
  simp only [getS_ok, Prod.mk.injEq] at hA
  obtain ⟨rfl, rfl, rfl⟩ := hA
  rw [bind_ok2] at h
  obtain ⟨_u1, sB, oA, oB, hB, h, rfl⟩ := h
  simp only [advanceM_ok, Prod.mk.injEq] at hB
  obtain ⟨-, rfl, rfl⟩ := hB
  -- the (unused) return type
  rw [bind_ok2] at h
  obtain ⟨sC1, sC, oA, oB, hC, h, rfl⟩ := h
  simp only [getS_ok, Prod.mk.injEq] at hC
  obtain ⟨rfl, rfl, rfl⟩ := hC
  rw [bind_ok2] at h
  obtain ⟨_u2, sD, oA, oB, hD, h, rfl⟩ := h
  simp only [advanceM_ok, Prod.mk.injEq] at hD
  obtain ⟨-, rfl, rfl⟩ := hD
  -- the subroutine name
  rw [bind_ok2] at h
  obtain ⟨ntok, sE, oA, oB, hE, h, rfl⟩ := h
  rw [expectT_ok] at hE
  obtain ⟨-, hE2⟩ := hE
  simp only [Prod.mk.injEq] at hE2
  obtain ⟨rfl, rfl, rfl⟩ := hE2
  rw [bind_ok2] at h
  obtain ⟨_u3, sF, oA, oB, hF, h, rfl⟩ := h
  simp only [setSubroutineNameM_ok, Prod.mk.injEq] at hF
  obtain ⟨-, rfl, rfl⟩ := hF
  -- the opening parenthesis
  rw [bind_ok2] at h
  obtain ⟨t1, sG, oA, oB, hG, h, rfl⟩ := h
  rw [expectTV_ok] at hG
  obtain ⟨-, -, hG2⟩ := hG
  simp only [Prod.mk.injEq] at hG2
  obtain ⟨rfl, rfl, rfl⟩ := hG2
  -- reset the subroutine scope
  rw [bind_ok2] at h
  obtain ⟨_u4, sH, oA, oB, hH, h, rfl⟩ := h
  simp only [startSubroutineM_ok, Prod.mk.injEq] at hH
  obtain ⟨-, rfl, rfl⟩ := hH
  -- predefine this (the method path is taken)
  rw [hm, predefineThis_method, writePrologue_method] at h
  rw [bind_ok2] at h
  obtain ⟨_u5, sJ, oA, oB, hPD, h, rfl⟩ := h
  rw [bind_ok2] at hPD
  obtain ⟨sI1, sI, oC, oD, hI, hIdef, rfl⟩ := hPD
  simp only [getS_ok, Prod.mk.injEq] at hI
  obtain ⟨rfl, rfl, rfl⟩ := hI
  simp only [defineM_ok, Prod.mk.injEq] at hIdef
  obtain ⟨-, rfl, rfl⟩ := hIdef
  -- the parameter list
  rw [bind_ok2] at h
  obtain ⟨_u6, sP, oA, oB, hPL, h, rfl⟩ := h
  have hPLN := presN_parameter_list f _ _ hPL
  obtain ⟨-, hPLout⟩ := hPLN
  have hPLout2 : oA = [] := hPLout
  subst hPLout2
  obtain ⟨p1, p2, p3, p4, p5, p6, p7⟩ := parameter_list_scope f _ _ hPL
  simp only [advanceSt_st, advanceSt_tokens, advanceSt_className, advanceSt_subroutineName,
    define_ARG, SymbolTable.start_subroutine, dictInsert] at p1 p2 p3 p4 p5 p6 p7
  -- close of the parameter list and opening brace
  rw [bind_ok2] at h
  obtain ⟨t2, sK, oA, oB, hK, h, rfl⟩ := h
  rw [expectTV_ok] at hK
  obtain ⟨-, -, hK2⟩ := hK
  simp only [Prod.mk.injEq] at hK2
  obtain ⟨rfl, rfl, rfl⟩ := hK2
  rw [bind_ok2] at h
  obtain ⟨t3, sL, oA, oB, hL, h, rfl⟩ := h
  rw [expectTV_ok] at hL
  obtain ⟨-, -, hL2⟩ := hL
  simp only [Prod.mk.injEq] at hL2
  obtain ⟨rfl, rfl, rfl⟩ := hL2
  -- local variable declarations
  rw [bind_ok2] at h
  obtain ⟨_u7, sV, oA, oB, hVD, h, rfl⟩ := h
  have hVDN := presN_varDecsLoop f _ _ hVD
  obtain ⟨-, hVDout⟩ := hVDN
  have hVDout2 : oA = [] := hVDout
  subst hVDout2
  have hvinv := presV_varDecsLoop f _ _ hVD
  -- the recount state
  rw [bind_ok2] at h
  obtain ⟨sX1, s3, oA, oB, hX, h, rfl⟩ := h
  simp only [getS_ok, Prod.mk.injEq] at hX
  obtain ⟨rfl, rfl, rfl⟩ := hX
  obtain ⟨v1, v2, v3, v4, v5, v6, v7⟩ := hvinv
  simp only [advanceSt_st, advanceSt_tokens, advanceSt_className,
    advanceSt_subroutineName] at v1 v2 v3 v4 v5 v6 v7
  -- the function line
  rw [bind_ok2] at h
  obtain ⟨_u8, sW, oA, oB, hW, h, rfl⟩ := h
  simp only [write_function, emit_ok, Prod.mk.injEq] at hW
  obtain ⟨-, rfl, rfl⟩ := hW
  -- the method prologue
  rw [bind_ok2] at h
  obtain ⟨_u9, sY, oA, oB, hWP, h, rfl⟩ := h
  rw [bind_ok2] at hWP
  obtain ⟨_u10, sY2, oC, oD, hY, hY2, rfl⟩ := hWP
  simp only [write_push, emit_ok, Prod.mk.injEq] at hY
  obtain ⟨-, rfl, rfl⟩ := hY
  simp only [write_pop, emit_ok, Prod.mk.injEq] at hY2
  obtain ⟨-, rfl, rfl⟩ := hY2
  -- the statement list
  rw [bind_ok2] at h
  obtain ⟨_u11, sS, oStmts, oB, hS, h, rfl⟩ := h
  -- the closing brace and the final unit
  rw [bind_ok2] at h
  obtain ⟨t4, sT, oA, oB2, hT, h, rfl⟩ := h
  rw [expectTV_ok] at hT
  obtain ⟨-, -, hT2⟩ := hT
  simp only [Prod.mk.injEq] at hT2
  obtain ⟨rfl, rfl, rfl⟩ := hT2
  rw [pure_ok] at h
  simp only [Prod.mk.injEq] at h
  obtain ⟨-, -, rfl⟩ := h
  -- now assemble the conclusion
  have hcn : sY.className = sA.className := v2.trans p2
  have hsn : sY.subroutineName = (advanceSt (advanceSt sA)).cur.value := v3.trans p3
  have htokeq : sP.tokens = sA.tokens := p1
  have hfthisP : dictFind sP.st.subroutine_symbols "this"
      = some ⟨"this", sA.className, SymbolKind.ARG, 0⟩ := by
    rw [p6 "this" hthis]
    simp [dictFind]
  have hfthis3 : dictFind sY.st.subroutine_symbols "this"
      = some ⟨"this", sA.className, SymbolKind.ARG, 0⟩ := by
    rw [v6 "this" (by rw [htokeq]; exact hthis)]
    exact hfthisP
  refine ⟨sY.st, oStmts, ?_, ?_, ?_⟩
  · simp only [List.nil_append, List.append_nil, List.cons_append, List.singleton_append]
    rw [hcn, hsn]
    rfl
  · rw [SymbolTable.lookup, hfthis3]
  · intro n sym hf hkind hnthis
    rcases v7 n sym hf with hl | hv
    · rcases p7 n sym hl with hl2 | hr
      · rw [show dictFind [("this", (⟨"this", sA.className, SymbolKind.ARG, 0⟩ : Symbol))] n
              = none from by simp [dictFind, Ne.symm hnthis]] at hl2
        exact Option.noConfusion hl2
      · have hle := hr.2
        omega
    · rw [hkind] at hv
      exact absurd hv (by decide)

def c2Toks : List Token :=
  tokenizeStr "method void m ( int x ) \x7b var int y ; return ; \x7d"

def c2State : PState :=
  { tokens := c2Toks, pos := 0, st := emptySymbolTable, labelCounter := 0,
    className := "C", subroutineName := "" }

theorem c2_method_prologue_witness :
    ∃ (st3 : SymbolTable) (rest : List String),
      resOut (compile_subroutine_dec 40 c2State)
        = ("function " ++ (c2State.className ++ "."
              ++ (advanceSt (advanceSt c2State)).cur.value)
             ++ " " ++ Nat.repr (countVarSyms st3.subroutine_symbols))
          :: "push argument 0" :: "pop pointer 0" :: rest ∧
      st3.lookup "this" = some ⟨"this", c2State.className, SymbolKind.ARG, 0⟩ ∧
      (∀ n sym, dictFind st3.subroutine_symbols n = some sym →
        sym.kind = SymbolKind.ARG → n ≠ "this" → 1 ≤ sym.index) :=
  c2_method_prologue 40 c2State (resState (compile_subroutine_dec 40 c2State))
    (resOut (compile_subroutine_dec 40 c2State)) (by rfl) (by rfl) (by decide)

/-! ## Claim C1 -/

/-- C1: the claim (with the spec) says that each keyword constant `true` in a
term compiles to exactly `push constant 0; not`.  The code's `compile_term`
instead emits `push constant 1; not`, which pushes −2 rather than −1: this
theorem evaluates the compiler at such a term.  Since the compiler's own
`if`/`while` translations negate the condition with `not`, `if (true)` would
branch to the false-arm, so the claim (and spec) state the clear intent and
the code has a slipped constant: a code bug. -/
theorem c1_true_emits_push_one_not (f : Nat) (s : PState)
    (h1 : s.cur.type ≠ TokenType.INT_CONST) (h2 : s.cur.type ≠ TokenType.STRING_CONST)
    (h3 : s.cur.value = "true") :
    compile_term (f+1) s = .ok ((), advanceSt s, ["push constant 1", "not"]) := by
  have hm : matchv ["true", "false", "null", "this"] s = true := by
    simp [matchv, h3]
  simp only [compile_term, bind_is_M_bind, pure_is_M_pure]
  show M.bind getS _ s = _
  unfold M.bind getS
  simp only [h1, h2, hm, h3, if_neg, if_pos, if_true, if_false]
  rfl

def c1State : PState :=
  ⟨[⟨.KEYWORD, "true", 1⟩, ⟨.EOF, "", 1⟩], 0, emptySymbolTable, 0, "C", ""⟩

/-- C1 witness: the theorem applied to a concrete `true` token. -/
theorem c1_true_emits_push_one_not_witness :
    compile_term 5 c1State = .ok ((), advanceSt c1State, ["push constant 1", "not"]) :=
  c1_true_emits_push_one_not 4 c1State (by decide) (by decide) rfl

/-! ## Claim C5 -/

/-- C5 counterexample: the claim says a character outside every token class
causes a lexical error.  The tokenizer of the code has no error path at all:
on `"@"` it silently skips the character and tokenizes to just the EOF token,
and on `"@3"` it continues and still produces the following number. -/
theorem c5_counterexample :
    tokenizeStr "@" = [⟨.EOF, "", 1⟩] ∧
    tokenizeStr "@3" = [⟨.INT_CONST, "3", 1⟩, ⟨.EOF, "", 1⟩] := ⟨rfl, rfl⟩

/-- C5 (amended): a character that is not whitespace, not a quote, digit,
letter or underscore, and not in the symbol set is silently skipped — one
loop iteration drops it, producing no token and no error. -/
theorem c5_bad_char_skipped (f : Nat) (c : Char) (rest : List Char) (ln : Nat)
    (hs : pyIsSpace c = false) (hq : c ≠ '\x22') (hd : pyIsDigit c = false)
    (ha : pyIsAlpha c = false) (hu : c ≠ '_') (hsym : c ∉ symbolList) :
    tokenizeLoop (f+1) (c :: rest) ln = tokenizeLoop f rest ln := by
  have hslash : c ≠ '/' := fun he => hsym (by rw [he]; decide)
  rw [tokenizeLoop]
  simp only [List.length_cons]
  rw [skipWsC_stuck _ _ _ hs hslash]
  simp only []
  rw [if_neg hq, if_neg (by simp [hd]), if_neg (by simp [ha, hu]), if_neg hsym]

/-- C5 witness: skipping the concrete character `@`. -/
theorem c5_bad_char_skipped_witness :
    tokenizeLoop 2 ['@', '3'] 1 = tokenizeLoop 1 ['3'] 1 :=
  c5_bad_char_skipped 1 '@' ['3'] 1 (by decide) (by decide) (by decide)
    (by decide) (by decide) (by decide)

/-! ## Claim C6 -/

/-- C6 counterexample: the claim says a decimal literal above 32767 causes a
lexical error.  `_read_number` has no range check: `"32768"` tokenizes
successfully to an INT_CONST token (of numeric value 32768 > 32767). -/
theorem c6_counterexample :
    tokenizeStr "32768" = [⟨.INT_CONST, "32768", 1⟩, ⟨.EOF, "", 1⟩] ∧
    decNat "32768" = 32768 := ⟨rfl, rfl⟩

/-- C6 (amended): any maximal nonempty digit run becomes an INT_CONST token
whose lexeme is the run itself, with no range check on its value. -/
theorem c6_digit_run_no_range_check (f : Nat) (d : Char) (ds rest : List Char) (ln : Nat)
    (hdig : ∀ c ∈ d :: ds, pyIsDigit c = true)
    (hbound : ∀ c rest2, rest = c :: rest2 → pyIsDigit c = false) :
    tokenizeLoop (f+1) ((d :: ds) ++ rest) ln =
      ⟨.INT_CONST, String.mk (d :: ds), ln⟩ :: tokenizeLoop f rest ln := by
  have hd : pyIsDigit d = true := hdig d (List.mem_cons_self d ds)
  have hs : pyIsSpace d = false := by
    have h1 := pyIsDigit_ne hd ' ' (by decide)
    have h2 := pyIsDigit_ne hd '\t' (by decide)
    have h3 := pyIsDigit_ne hd '\n' (by decide)
    have h4 := pyIsDigit_ne hd '\r' (by decide)
    have h5 := pyIsDigit_ne hd '\x0b' (by decide)
    have h6 := pyIsDigit_ne hd '\x0c' (by decide)
    simp [pyIsSpace, h1, h2, h3, h4, h5, h6]
  have hslash : d ≠ '/' := pyIsDigit_ne hd '/' (by decide)
  have hq : d ≠ '\x22' := pyIsDigit_ne hd '\x22' (by decide)
  have htw : ((d :: ds) ++ rest).takeWhile pyIsDigit = d :: ds := by
    rw [takeWhile_append_of_all _ _ hdig]
    cases hr : rest with
    | nil => simp
    | cons c rest2 =>
      rw [List.takeWhile_cons]
      simp [hbound c rest2 hr]
  have hdw : ((d :: ds) ++ rest).dropWhile pyIsDigit = rest := by
    rw [dropWhile_append_of_all _ _ hdig]
    cases hr : rest with
    | nil => simp
    | cons c rest2 =>
      rw [List.dropWhile_cons]
      simp [hbound c rest2 hr]
  rw [tokenizeLoop]
  simp only [List.cons_append, List.length_cons]
  rw [skipWsC_stuck _ _ _ hs hslash]
  simp only []
  rw [if_neg hq, if_pos hd]
  simp only [List.cons_append] at htw hdw
  rw [htw, hdw]

/-- C6 witness: the run `32768` (value beyond 32767) is tokenized whole. -/
theorem c6_digit_run_no_range_check_witness :
    tokenizeLoop 2 (['3', '2', '7', '6', '8'] ++ []) 1 =
      ⟨.INT_CONST, String.mk ['3', '2', '7', '6', '8'], 1⟩ :: tokenizeLoop 1 [] 1 :=
  c6_digit_run_no_range_check 1 '3' ['2', '7', '6', '8'] [] 1 (by decide)
    (fun c rest2 h => by cases h)

/-! ## Claim C7 -/

/-- C7 counterexample: the claim says re-declaring a name in the same scope is
a compile error.  `SymbolTable.define` performs no duplicate check: defining
`x` twice as a Static succeeds and overwrites the binding (with the counter
incremented twice, so the surviving binding has index 1). -/
theorem c7_counterexample :
    ((emptySymbolTable.define "x" "int" .STATIC).define "x" "boolean" .STATIC).lookup "x" =
      some ⟨"x", "boolean", .STATIC, 1⟩ ∧
    ((emptySymbolTable.define "x" "int" .STATIC).define "x" "boolean" .STATIC).static_count = 2 :=
  ⟨rfl, rfl⟩

/-- The per-kind counter of the symbol table (reading of the four fields). -/
def kindCount (st : SymbolTable) : SymbolKind → Nat
  | .STATIC => st.static_count
  | .FIELD => st.field_count
  | .ARG => st.arg_count
  | .VAR => st.var_count

/-- The scope a kind defines into. -/
def scopeFind (st : SymbolTable) (k : SymbolKind) (n : String) : Option Symbol :=
  if k = .STATIC ∨ k = .FIELD then dictFind st.class_symbols n
  else dictFind st.subroutine_symbols n

/-- C7 (amended): re-declaring a name in the same scope never fails; the new
binding silently overwrites the old one, and the kind counter is incremented
again, so the surviving binding carries index `old counter + 1`. -/
theorem c7_redeclare_overwrites (st : SymbolTable) (n t1 t2 : String) (k : SymbolKind) :
    scopeFind ((st.define n t1 k).define n t2 k) k n =
      some ⟨n, t2, k, kindCount st k + 1⟩ := by
  cases k <;>
    simp [SymbolTable.define, SymbolTable.getCount, scopeFind, kindCount,
      dictFind_dictInsert]

/-! ## Claim C9 -/

/-- C9: if reading the input file succeeds but parsing raises any error, the
output file is not written: `compile_file` returns the file system unchanged
(the emitted buffer is carried inside the discarded `Except` result).  This
matches the code, where the output file is only opened after `parse`
returns. -/
theorem c9_error_leaves_fs_unchanged (f : Nat) (fs : List (String × String))
    (input_file output_file code : String)
    (hread : fsRead fs input_file = some code)
    (herr : isErr (runParse f (tokenizeStr code)) = true) :
    compile_file f fs input_file output_file = fs := by
  unfold compile_file
  rw [hread]
  show (match runParse f (tokenizeStr code) with
        | .error _ => fs
        | .ok vm => fsWrite fs output_file vm) = fs
  cases hpr : runParse f (tokenizeStr code) with
  | error e => rfl
  | ok vm =>
    rw [hpr] at herr
    simp [isErr] at herr

/-- C9 witness: a file whose contents do not parse is left uncompiled and the
file system is unchanged. -/
theorem c9_error_leaves_fs_unchanged_witness :
    compile_file 5 [("Main.jack", "x")] "Main.jack" "Main.vm" = [("Main.jack", "x")] :=
  c9_error_leaves_fs_unchanged 5 [("Main.jack", "x")] "Main.jack" "Main.vm" "x" rfl rfl

/-! ## Claim C10 -/

/-- C10: when `compile_term` is entered on a symbol token that begins no term
(none of the keyword constants, not unary `-`/`~`, not `(`), it falls through
every branch: it returns successfully with the parser state unchanged, no
token consumed and nothing emitted. -/
theorem c10_non_term_symbol_noop (f : Nat) (s : PState)
    (h1 : s.cur.type = TokenType.SYMBOL)
    (h2 : s.cur.value ∉ ["true", "false", "null", "this", "-", "~", "("]) :
    compile_term (f+1) s = .ok ((), s, []) := by
  simp only [List.mem_cons, List.not_mem_nil, or_false, not_or] at h2
  obtain ⟨n1, n2, n3, n4, n5, n6, n7⟩ := h2
  have hm1 : matchv ["true", "false", "null", "this"] s = false := by
    simp [matchv, n1, n2, n3, n4]
  have hm2 : matchv ["-", "~"] s = false := by
    simp [matchv, n5, n6]
  have hm3 : matchv ["("] s = false := by
    simp [matchv, n7]
  simp only [compile_term, bind_is_M_bind, pure_is_M_pure]
  show M.bind getS _ s = _
  unfold M.bind getS
  simp only [h1, hm1, hm2, hm3]
  rfl

def c10State : PState :=
  ⟨[⟨.SYMBOL, ";", 1⟩, ⟨.EOF, "", 1⟩], 0, emptySymbolTable, 0, "C", ""⟩

/-- C10 witness: `compile_term` on a `;` token is a no-op. -/
theorem c10_non_term_symbol_noop_witness :
    compile_term 5 c10State = .ok ((), c10State, []) :=
  c10_non_term_symbol_noop 4 c10State (by decide) (by decide)

end Jack

namespace Jack

/-! ## Claim C3 -/

def c3State : PState :=
  ⟨tokenizeStr "let a [ 1 ] = 2 ;", 0, emptySymbolTable.define "a" "int" .VAR, 0, "T", "f"⟩

/-- C3 counterexample: the claim says the base of `a` is pushed before the
index expression is compiled.  On `let a[1] = 2;` (with `a` the Local 0), the
code emits `push constant 1` (the index) first and only then `push local 0`
(the base), so the claimed sequence is not produced. -/
theorem c3_counterexample :
    resOut (compile_let 10 c3State) =
      ["push constant 1", "push local 0", "add", "push constant 2",
       "pop temp 0", "pop pointer 1", "push temp 0", "pop that 0"] ∧
    resOut (compile_let 10 c3State) ≠
      ["push local 0", "push constant 1", "add", "push constant 2",
       "pop temp 0", "pop pointer 1", "push temp 0", "pop that 0"] :=
  ⟨rfl, by decide⟩

/-- C3 (amended): for an array-form let the emitted sequence is: the
instructions of the index expression `i` first, then the push of the base
variable `a`, then `add`, then the instructions of the right-hand side, then
exactly `pop temp 0; pop pointer 1; push temp 0; pop that 0` — the index is
compiled before the base is pushed (the two pushes are swapped relative to
the claim; the computed address is the same since `add` commutes). -/
theorem c3_array_let_index_before_base (f : Nat) (s : PState) (s' : PState) (out : List String)
    (hrun : compile_let (f+1) s = .ok ((), s', out))
    (hlen : s.pos + 3 < s.tokens.length)
    (hbr : (s.tokens.getD (s.pos + 2) emptyTok).value = "[") :
    ∃ sym A s2 B s3,
      s.st.lookup ((s.tokens.getD (s.pos + 1) emptyTok).value) = some sym ∧
      compile_expression f { s with pos := s.pos + 3 } = .ok ((), s2, A) ∧
      compile_expression f (advanceSt (advanceSt s2)) = .ok ((), s3, B) ∧
      out = A ++ ("push " ++ segFor sym.kind ++ " " ++ Nat.repr sym.index) :: "add" ::
            (B ++ ["pop temp 0", "pop pointer 1", "push temp 0", "pop that 0"]) := by
  have ha1 : advanceSt s = { s with pos := s.pos + 1 } :=
    advanceSt_eq_of (by omega)
  have ha2 : advanceSt { s with pos := s.pos + 1 } = { s with pos := s.pos + 2 } := by
    rw [advanceSt_eq_of (by simp; omega)]
  have ha3 : advanceSt { s with pos := s.pos + 2 } = { s with pos := s.pos + 3 } := by
    rw [advanceSt_eq_of (by simp; omega)]
  simp only [compile_let, bind_is_M_bind, pure_is_M_pure] at hrun
  rw [bind_ok2] at hrun
  obtain ⟨tA, sA, oA, oB, hA, hrun, rfl⟩ := hrun
  simp only [expectTV_ok, Prod.mk.injEq] at hA
  obtain ⟨-, -, rfl, rfl, rfl⟩ := hA
  rw [bind_ok2] at hrun
  obtain ⟨tok, sB, oA, oB, hB, hrun, rfl⟩ := hrun
  simp only [expectT_ok, Prod.mk.injEq] at hB
  obtain ⟨-, rfl, rfl, rfl⟩ := hB
  rw [bind_ok2] at hrun
  obtain ⟨symOpt, sC, oA, oB, hC, hrun, rfl⟩ := hrun
  simp only [lookupM_ok, Prod.mk.injEq] at hC
  obtain ⟨rfl, rfl, rfl⟩ := hC
  rw [bind_ok2] at hrun
  obtain ⟨sG, sD, oA, oB, hD, hrun, rfl⟩ := hrun
  simp only [getS_ok, Prod.mk.injEq] at hD
  obtain ⟨rfl, rfl, rfl⟩ := hD
  rw [ha1, ha2] at hrun
  have hcv : ({ s with pos := s.pos + 2 } : PState).cur.value = "[" := by
    rw [show ({ s with pos := s.pos + 2 } : PState).cur =
      s.tokens.getD (s.pos + 2) emptyTok from rfl]
    exact hbr
  have hmv : matchv ["["] { s with pos := s.pos + 2 } = true := by
    simp [matchv, hcv]
  rw [if_pos hmv] at hrun
  rw [bind_ok2] at hrun
  obtain ⟨_u, sE, oA, oB, hE, hrun, rfl⟩ := hrun
  simp only [advanceM_ok, Prod.mk.injEq] at hE
  obtain ⟨-, rfl, rfl⟩ := hE
  rw [ha3] at hrun
  rw [bind_ok2] at hrun
  obtain ⟨_u, s2, A, oB, hX, hrun, rfl⟩ := hrun
  rw [bind_ok2] at hrun
  obtain ⟨_u, sF, oA, oB, hF, hrun, rfl⟩ := hrun
  simp only [expectTV_ok, Prod.mk.injEq] at hF
  obtain ⟨-, -, rfl, rfl, rfl⟩ := hF
  rw [bind_ok2] at hrun
  obtain ⟨sym, sH, oA, oB, hH, hrun, rfl⟩ := hrun
  rw [forceSym_ok] at hH
  obtain ⟨sym2, hsymeq, heq2⟩ := hH
  simp only [Prod.mk.injEq] at heq2
  obtain ⟨rfl, rfl, rfl⟩ := heq2
  rw [bind_ok2] at hrun
  obtain ⟨_u, sI, oA, oB, hI, hrun, rfl⟩ := hrun
  simp only [write_push, emit_ok, Prod.mk.injEq] at hI
  obtain ⟨-, rfl, rfl⟩ := hI
  rw [bind_ok2] at hrun
  obtain ⟨_u, sJ, oA, oB, hJ, hrun, rfl⟩ := hrun
  simp only [write_arithmetic, emit_ok, Prod.mk.injEq] at hJ
  obtain ⟨-, rfl, rfl⟩ := hJ
  rw [bind_ok2] at hrun
  obtain ⟨_u, sK, oA, oB, hK, hrun, rfl⟩ := hrun
  simp only [expectTV_ok, Prod.mk.injEq] at hK
  obtain ⟨-, -, rfl, rfl, rfl⟩ := hK
  rw [bind_ok2] at hrun
  obtain ⟨_u, s3, B, oB, hY, hrun, rfl⟩ := hrun
  rw [bind_ok2] at hrun
  obtain ⟨_u, sL, oA, oB, hL, hrun, rfl⟩ := hrun
  simp only [expectTV_ok, Prod.mk.injEq] at hL
  obtain ⟨-, -, rfl, rfl, rfl⟩ := hL
  rw [if_pos hmv] at hrun
  rw [bind_ok2] at hrun
  obtain ⟨_u, sM, oA, oB, hM, hrun, rfl⟩ := hrun
  simp only [write_pop, emit_ok, Prod.mk.injEq] at hM
  obtain ⟨-, rfl, rfl⟩ := hM
  rw [bind_ok2] at hrun
  obtain ⟨_u, sN, oA, oB, hN, hrun, rfl⟩ := hrun
  simp only [write_pop, emit_ok, Prod.mk.injEq] at hN
  obtain ⟨-, rfl, rfl⟩ := hN
  rw [bind_ok2] at hrun
  obtain ⟨_u, sO, oA, oB, hO, hrun, rfl⟩ := hrun
  simp only [write_push, emit_ok, Prod.mk.injEq] at hO
  obtain ⟨-, rfl, rfl⟩ := hO
  simp only [write_pop, emit_ok, Prod.mk.injEq] at hrun
  obtain ⟨-, rfl, rfl⟩ := hrun
  refine ⟨sym, A, s2, B, s3, ?_, hX, hY, ?_⟩
  · rw [← hsymeq]
    rfl
  · simp
    exact ⟨rfl, rfl, rfl, rfl, rfl⟩

/-- C3 witness: the amended theorem applied to the concrete `let a [ 1 ] = 2 ;`. -/
theorem c3_array_let_index_before_base_witness :
    ∃ sym A s2 B s3,
      c3State.st.lookup ((c3State.tokens.getD (c3State.pos + 1) emptyTok).value) = some sym ∧
      compile_expression 9 { c3State with pos := c3State.pos + 3 } = .ok ((), s2, A) ∧
      compile_expression 9 (advanceSt (advanceSt s2)) = .ok ((), s3, B) ∧
      resOut (compile_let 10 c3State) =
        A ++ ("push " ++ segFor sym.kind ++ " " ++ Nat.repr sym.index) :: "add" ::
          (B ++ ["pop temp 0", "pop pointer 1", "push temp 0", "pop that 0"]) :=
  c3_array_let_index_before_base 9 c3State (resState (compile_let 10 c3State))
    (resOut (compile_let 10 c3State)) rfl (by decide) rfl

/-! ## Claim C8 -/

def c8Toks : List Token := tokenizeStr "class A { function void f() { do g(); return; } }"

/-- C8 counterexample: the claim says an implicit-self call inside a
`function` is rejected at compile time with a semantic error.  The code
compiles `do g();` inside `function void f()` without any check, pushing the
(unbound) receiver `pointer 0` and emitting `call A.g 1`. -/
theorem c8_counterexample :
    parseOut 60 c8Toks =
      .ok ["function A.f 0", "push pointer 0", "call A.g 1", "pop temp 0",
           "push constant 0", "return"] ∧
    "push pointer 0" ∈
      ["function A.f 0", "push pointer 0", "call A.g 1", "pop temp 0",
       "push constant 0", "return"] :=
  ⟨rfl, by decide⟩

/-- C8 (amended): a subroutine call of the form `id(args)` always compiles to
`push pointer 0`, the argument expressions, and `call C.id (1+n)` — the
parser does not even record the kind of the enclosing subroutine, so no
compile-time rejection inside a `function` is possible; the failure is
deferred to runtime. -/
theorem c8_implicit_call_emitted_unchecked (f : Nat) (s : PState) (s' : PState) (out : List String)
    (hrun : compile_subroutine_call (f+1) s = .ok ((), s', out))
    (hlen : s.pos + 1 < s.tokens.length)
    (hnodot : (s.tokens.getD (s.pos + 1) emptyTok).value ≠ ".") :
    ∃ n s2 A,
      compile_expression_list f (advanceSt (advanceSt s)) = .ok (n, s2, A) ∧
      out = "push pointer 0" ::
        (A ++ ["call " ++ s.className ++ "." ++ s.cur.value ++ " " ++ Nat.repr (1 + n)]) := by
  have ha1 : advanceSt s = { s with pos := s.pos + 1 } := advanceSt_eq_of (by omega)
  simp only [compile_subroutine_call, bind_is_M_bind, pure_is_M_pure] at hrun
  rw [bind_ok2] at hrun
  obtain ⟨tok, sA, oA, oB, hA, hrun, rfl⟩ := hrun
  simp only [expectT_ok, Prod.mk.injEq] at hA
  obtain ⟨-, rfl, rfl, rfl⟩ := hA
  rw [bind_ok2] at hrun
  obtain ⟨sG, sB, oA, oB, hB, hrun, rfl⟩ := hrun
  simp only [getS_ok, Prod.mk.injEq] at hB
  obtain ⟨rfl, rfl, rfl⟩ := hB
  rw [ha1] at hrun
  have hcv : ({ s with pos := s.pos + 1 } : PState).cur.value =
      (s.tokens.getD (s.pos + 1) emptyTok).value := rfl
  have hmv : matchv ["."] { s with pos := s.pos + 1 } = false := by
    unfold matchv
    apply decide_eq_false
    intro hmem
    rw [List.mem_singleton] at hmem
    rw [hcv] at hmem
    exact hnodot hmem
  rw [if_neg (by simp [hmv])] at hrun
  rw [bind_ok2] at hrun
  obtain ⟨s1, sC, oA, oB, hC, hrun, rfl⟩ := hrun
  simp only [getS_ok, Prod.mk.injEq] at hC
  obtain ⟨rfl, rfl, rfl⟩ := hC
  rw [bind_ok2] at hrun
  obtain ⟨_u, sD, oA, oB, hD, hrun, rfl⟩ := hrun
  simp only [write_push, emit_ok, Prod.mk.injEq] at hD
  obtain ⟨-, rfl, rfl⟩ := hD
  rw [bind_ok2] at hrun
  obtain ⟨y, sE, oA, oB, hE, hrun, rfl⟩ := hrun
  rw [pure_ok] at hE
  simp only [Prod.mk.injEq] at hE
  obtain ⟨rfl, rfl, rfl⟩ := hE
  rw [bind_ok2] at hrun
  obtain ⟨_u, sF, oA, oB, hF, hrun, rfl⟩ := hrun
  simp only [expectTV_ok, Prod.mk.injEq] at hF
  obtain ⟨-, -, rfl, rfl, rfl⟩ := hF
  rw [bind_ok2] at hrun
  obtain ⟨n, s2, A, oB, hList, hrun, rfl⟩ := hrun
  rw [bind_ok2] at hrun
  obtain ⟨_u, sH, oA, oB, hH, hrun, rfl⟩ := hrun
  simp only [expectTV_ok, Prod.mk.injEq] at hH
  obtain ⟨-, -, rfl, rfl, rfl⟩ := hH
  simp only [write_call, emit_ok, Prod.mk.injEq] at hrun
  obtain ⟨-, rfl, rfl⟩ := hrun
  refine ⟨n, s2, A, ?_, ?_⟩
  · rw [ha1]
    exact hList
  · simp
    exact ⟨rfl, rfl⟩

def c8CallState : PState :=
  ⟨tokenizeStr "g ( ) ;", 0, emptySymbolTable, 0, "A", ""⟩

/-- C8 witness: the amended theorem applied to a concrete implicit-self call. -/
theorem c8_implicit_call_emitted_unchecked_witness :
    ∃ n s2 A,
      compile_expression_list 19 (advanceSt (advanceSt c8CallState)) = .ok (n, s2, A) ∧
      resOut (compile_subroutine_call 20 c8CallState) =
        "push pointer 0" ::
          (A ++ ["call " ++ c8CallState.className ++ "." ++ c8CallState.cur.value ++
                 " " ++ Nat.repr (1 + n)]) :=
  c8_implicit_call_emitted_unchecked 19 c8CallState
    (resState (compile_subroutine_call 20 c8CallState))
    (resOut (compile_subroutine_call 20 c8CallState)) rfl (by decide) (by decide)

/-! ## Claim C4 -/

/-- C4: every `label` line a successful class compilation emits has the form
`prefix_n` with prefix one of IF_FALSE, IF_END, WHILE_LOOP, WHILE_END, and
the numeric suffixes are drawn (each exactly once) from the single per-class
counter that `CodeGenerator.__init__` starts at 0 and `get_unique_label`
strictly increases — hence no two label definitions in one output file are
equal. -/
theorem c4_labels_wellformed_unique (f : Nat) (tokens : List Token) (out : List String)
    (h : parseOut f tokens = .ok out) :
    (∀ l ∈ labelDefs out, ∃ p k, p ∈ labelKinds ∧ l = p ++ "_" ++ Nat.repr k) ∧
    (labelDefs out).Nodup := by
  unfold parseOut at h
  cases hc : compile_class f (initState tokens) with
  | error e =>
    rw [hc] at h
    simp at h
  | ok r =>
    obtain ⟨u, s2, o⟩ := r
    rw [hc] at h
    simp only [Except.ok.injEq] at h
    subst h
    have hlok := compile_class_LOK hc
    exact ⟨fun l hl => by
      obtain ⟨p, k, hp, -, he⟩ := hlok.shape l hl
      exact ⟨p, k, hp, he⟩, hlok.nodup⟩

def c4Toks : List Token :=
  tokenizeStr "class C { function int g() { while (1) { if (1) { return 1; } else { return 2; } } return 0; } }"

def c4Out : List String :=
  match parseOut 30 c4Toks with
  | .ok o => o
  | .error _ => []

set_option maxHeartbeats 2000000

/-- C4 witness: a class with a while and an if/else; its four emitted labels
are pairwise distinct and each has an allowed prefix. -/
theorem c4_labels_wellformed_unique_witness :
    parseOut 30 c4Toks = Except.ok c4Out ∧ (labelDefs c4Out).Nodup :=
  ⟨rfl, (c4_labels_wellformed_unique 30 c4Toks c4Out rfl).2⟩

set_option maxHeartbeats 200000

end Jack
